import Mathlib

/-!
Verification of the enhanced bioinformatics ETL pipeline
(Scripts/python/enhanced_main_etl.py).

The Python code is shallowly embedded: strings are lists of characters,
Python dictionaries are insertion-ordered association lists, Python
`None`-or-string parameters are `Option (List Char)`, and fallible code
returns `Except` / `Option`.  Machine floats never influence any verified
property; expression-matrix cell values are therefore carried opaquely as
the raw cell text.
-/

namespace ETL

/-! ## Python string primitives -/

/-- ASCII whitespace as recognised by Python `str.strip`, `str.split` and
the regex class `\s` (space, tab, newline, carriage return, vertical tab,
form feed). -/
def isPySpace (c : Char) : Bool :=
  c.toNat = 32 || c.toNat = 9 || c.toNat = 10 || c.toNat = 13
    || c.toNat = 11 || c.toNat = 12

/-- Python `str.strip()`: drop ASCII whitespace from both ends. -/
def pyStrip (s : List Char) : List Char :=
  ((s.dropWhile isPySpace).reverse.dropWhile isPySpace).reverse

/-- Python `str.lower()` on one character (ASCII range, which covers every
descriptor and label in this pipeline). -/
def pyLowerChar (c : Char) : Char :=
  if 65 ≤ c.toNat ∧ c.toNat ≤ 90 then Char.ofNat (c.toNat + 32) else c

/-- Python `str.upper()` on one character (ASCII range). -/
def pyUpperChar (c : Char) : Char :=
  if 97 ≤ c.toNat ∧ c.toNat ≤ 122 then Char.ofNat (c.toNat - 32) else c

/-- Python `str.lower()`. -/
def pyLower (s : List Char) : List Char := s.map pyLowerChar

/-- Python `str.upper()`. -/
def pyUpper (s : List Char) : List Char := s.map pyUpperChar

/-- Worker for `subRunsWithSpace`; the flag records whether the previous
character belonged to a run being replaced. -/
def collapseRunsAux (p : Char → Bool) : Bool → List Char → List Char
  | _, [] => []
  | inRun, c :: cs =>
    if p c then
      if inRun then collapseRunsAux p true cs
      else ' ' :: collapseRunsAux p true cs
    else c :: collapseRunsAux p false cs

/-- Python `re.sub(cls + "+", " ", s)`: replace each maximal run of
characters matching `p` by a single space. -/
def subRunsWithSpace (p : Char → Bool) (s : List Char) : List Char :=
  collapseRunsAux p false s

/-- Characters collapsed by `re.sub(r"[\-_]+", " ", value)`. -/
def isDashUnderscore (c : Char) : Bool :=
  c = '-' || c = '_'

/-- Worker for `pySplit`; the accumulator holds the current word reversed. -/
def pySplitAux : List Char → List Char → List (List Char)
  | acc, [] => if acc = [] then [] else [acc.reverse]
  | acc, c :: cs =>
    if isPySpace c then
      if acc = [] then pySplitAux [] cs else acc.reverse :: pySplitAux [] cs
    else pySplitAux (c :: acc) cs

/-- Python `str.split()` with no argument: split on whitespace runs,
discarding empty words. -/
def pySplit (s : List Char) : List (List Char) := pySplitAux [] s

/-- Python substring test `needle in hay` for strings. -/
def containsSub (needle : List Char) : List Char → Bool
  | [] => needle.isEmpty
  | c :: cs => needle.isPrefixOf (c :: cs) || containsSub needle cs

/-! ## Python dictionaries as insertion-ordered association lists -/

/-- Python `d.get(k)` / `k in d` + `d[k]`: first binding of `k`. -/
def dictGet {V : Type} (m : List (List Char × V)) (k : List Char) : Option V :=
  (m.find? (fun p => p.1 == k)).map (fun p => p.2)

/-- Python `d[k] = v`: overwrite in place if the key exists, else append
(insertion order preserved, as for a CPython dict). -/
def dictInsert {V : Type} (m : List (List Char × V)) (k : List Char) (v : V) :
    List (List Char × V) :=
  if m.any (fun p => p.1 == k) then
    m.map (fun p => if p.1 == k then (p.1, v) else p)
  else m ++ [(k, v)]

/-! ## Measurement technology inference
(`_normalise_descriptor`, `_infer_measurement_technology`) -/

/-- `_normalise_descriptor`: empty for `None` or the empty string, else
lower-cased, stripped, with `[-_]+` runs and whitespace runs each collapsed
to a single space, in the order the source applies them. -/
def normaliseDescriptor (value : Option (List Char)) : List Char :=
  match value with
  | none => []
  | some s =>
    if s = [] then []
    else
      subRunsWithSpace isPySpace
        (subRunsWithSpace isDashUnderscore (pyLower (pyStrip s)))

/-- `str.replace(" ", "")` as used for the compact descriptor forms. -/
def compactOf (s : List Char) : List Char := s.filter (fun c => c != ' ')

/-- `_infer_measurement_technology`: the study descriptor is tested first;
only when it yields no verdict is the platform descriptor tested, where a
standalone `array` token also counts as MICROARRAY.  Early `return`
statements of the Python body are encoded through the intermediate
`Option`. -/
def inferMeasurementTechnology
    (studyTechnology platformName : Option (List Char)) : List Char :=
  let normalisedStudy := normaliseDescriptor studyTechnology
  let studyResult : Option (List Char) :=
    if normalisedStudy ≠ [] then
      let compactStudy := compactOf normalisedStudy
      let tokens := pySplit normalisedStudy
      if containsSub "microarray".data compactStudy then
        some "MICROARRAY".data
      else if containsSub "rnaseq".data compactStudy
          || containsSub "rna seq".data normalisedStudy
          || (tokens.contains "rna".data
              && (tokens.contains "seq".data
                  || tokens.contains "sequencing".data)) then
        some "RNA-SEQ".data
      else none
    else none
  match studyResult with
  | some r => r
  | none =>
    let normalisedPlatform := normaliseDescriptor platformName
    if normalisedPlatform ≠ [] then
      let compactPlatform := compactOf normalisedPlatform
      let platformTokens := pySplit normalisedPlatform
      if containsSub "microarray".data compactPlatform
          || platformTokens.contains "array".data then
        "MICROARRAY".data
      else if containsSub "rnaseq".data compactPlatform
          || containsSub "rna seq".data normalisedPlatform
          || (platformTokens.contains "rna".data
              && (platformTokens.contains "seq".data
                  || platformTokens.contains "sequencing".data)) then
        "RNA-SEQ".data
      else "OTHER".data
    else "OTHER".data

/-- Claim-side restatement of the three-tier test on one normalised
descriptor, following the wording of the specification: the substring
`microarray` of the compacted form gives MICROARRAY; else `rnaseq` in the
compact form, the phrase `rna seq`, or an `rna` token together with a
`seq` or `sequencing` token gives RNA-SEQ; a standalone `array` token
counts as MICROARRAY only when `arrayToken` is set (the platform tier). -/
def specTierVerdict (arrayToken : Bool) (norm : List Char) :
    Option (List Char) :=
  if norm = [] then none
  else if containsSub "microarray".data (compactOf norm)
      || (arrayToken && (pySplit norm).contains "array".data) then
    some "MICROARRAY".data
  else if containsSub "rnaseq".data (compactOf norm)
      || containsSub "rna seq".data norm
      || ((pySplit norm).contains "rna".data
          && ((pySplit norm).contains "seq".data
              || (pySplit norm).contains "sequencing".data)) then
    some "RNA-SEQ".data
  else none

/-- Claim-side measurement technology: study tier first, platform tier
only when the study tier yields no verdict, OTHER when neither does. -/
def specMeasurementTechnology
    (studyTechnology platformName : Option (List Char)) : List Char :=
  match specTierVerdict false (normaliseDescriptor studyTechnology) with
  | some v => v
  | none =>
    match specTierVerdict true (normaliseDescriptor platformName) with
    | some v => v
    | none => "OTHER".data

/-! ## Illness key resolution
(`_FALLBACK_ILLNESS_KEY_MAP`, `_coerce_to_pairs`, `_normalize_label`,
`_parse_key`, `_get_illness_key_map`) -/

/-- A Python illness key value: either an integer or a string that the
warehouse returned (other scalar types in a key position behave like a
string here, since only `int(key)` success or failure is observable). -/
inductive PyKey where
  | int (n : Int)
  | str (s : List Char)
deriving DecidableEq, Repr

/-- Model of Python `int(text)` for a string argument: optional
surrounding whitespace, an optional sign, then one or more digits. -/
def pyIntOfString (s : List Char) : Option Int :=
  let t := pyStrip s
  let core : Option (Bool × List Char) :=
    match t with
    | '-' :: rest => some (true, rest)
    | '+' :: rest => some (false, rest)
    | rest => some (false, rest)
  match core with
  | some (neg, ds) =>
    if ds ≠ [] ∧ ds.all (fun c => c.isDigit) then
      let mag : Nat := ds.foldl (fun acc c => acc * 10 + (c.toNat - 48)) 0
      some (if neg then -(mag : Int) else (mag : Int))
    else none
  | none => none

/-- `_normalize_label`: `str(label).strip().upper()`. -/
def normalizeLabel (label : List Char) : List Char :=
  pyUpper (pyStrip label)

/-- `_parse_key`: coerce numeric-looking keys to integers, leave the rest
unchanged. -/
def parseKey (key : PyKey) : PyKey :=
  match key with
  | .int n => .int n
  | .str s =>
    match pyIntOfString s with
    | some n => .int n
    | none => .str s

/-- `_FALLBACK_ILLNESS_KEY_MAP`. -/
def fallbackIllnessKeyMap : List (List Char × PyKey) :=
  [("UNKNOWN".data, .int 0), ("CONTROL".data, .int 1), ("SEPSIS".data, .int 2),
   ("SEPTIC_SHOCK".data, .int 3), ("NO_SEPSIS".data, .int 4)]

/-- One row of a `cursor.fetchall()` result, as discriminated by
`_coerce_to_pairs`: a two-element row, a mapping holding the
`illness_label` / `illness_key` fields, a mapping with at least two values
(its first two are taken), a mapping with fewer than two values
(`ValueError`), or a row that cannot be unpacked into a pair
(`TypeError`). -/
inductive PyRow where
  | pairRow (label : List Char) (key : PyKey)
  | mapRowLK (label : List Char) (key : PyKey)
  | mapRowVals (label : List Char) (key : PyKey)
  | mapRowShort
  | badRow
deriving DecidableEq, Repr

/-- The shape of a `cursor.fetchall()` result, as discriminated by
`_coerce_to_pairs`: `None`, a top-level mapping (its items are taken), a
string or bytes object (`TypeError`), a non-iterable object
(`TypeError`), or an iterable of rows. -/
inductive FetchResult where
  | pyNone
  | mappingResult (pairs : List (List Char × PyKey))
  | stringResult
  | notIterable
  | iterableResult (rows : List PyRow)
deriving DecidableEq, Repr

/-- `_coerce_to_pairs`: `.error ()` stands for the raised `TypeError` or
`ValueError`. -/
def coerceToPairs (rows : FetchResult) :
    Except Unit (List (List Char × PyKey)) :=
  match rows with
  | .pyNone => .ok []
  | .mappingResult pairs => .ok pairs
  | .stringResult => .error ()
  | .notIterable => .error ()
  | .iterableResult rs =>
    rs.foldl
      (fun acc r =>
        match acc, r with
        | .error e, _ => .error e
        | .ok l, .pairRow label key => .ok (l ++ [(label, key)])
        | .ok l, .mapRowLK label key => .ok (l ++ [(label, key)])
        | .ok l, .mapRowVals label key => .ok (l ++ [(label, key)])
        | .ok _, .mapRowShort => .error ()
        | .ok _, .badRow => .error ())
      (.ok [])

/-- The behaviour of the cursor argument of `_get_illness_key_map`:
absent (`None`), lacking a `fetchall` attribute (`AttributeError`),
raising from `fetchall`, returning a `unittest.mock` object, or returning
an ordinary fetch result. -/
inductive Cursor where
  | noCursor
  | fetchallMissing
  | fetchallRaises
  | fetchallMock
  | fetchallOk (r : FetchResult)
deriving DecidableEq, Repr

/-- Worker for `buildIllnessMap`, accumulating the dict under
construction. -/
def buildIllnessMapAux (m : List (List Char × PyKey)) :
    List (List Char × PyKey) → List (List Char × PyKey)
  | [] => m
  | lk :: rows =>
    if normalizeLabel lk.1 = [] then buildIllnessMapAux m rows
    else
      buildIllnessMapAux
        (dictInsert m (normalizeLabel lk.1) (parseKey lk.2)) rows

/-- The dictionary-building loop of `_get_illness_key_map`: normalise
each label, skip rows whose normalised label is empty, parse each key,
and assign into the result dict (later rows overwrite earlier ones). -/
def buildIllnessMap (rows : List (List Char × PyKey)) :
    List (List Char × PyKey) :=
  buildIllnessMapAux [] rows

/-- `_get_illness_key_map`: every failure path returns a copy of the
built-in fallback map (the `_fallback` helper only adds logging). -/
def getIllnessKeyMap (cursor : Cursor) : List (List Char × PyKey) :=
  match cursor with
  | .noCursor => fallbackIllnessKeyMap
  | .fetchallMissing => fallbackIllnessKeyMap
  | .fetchallRaises => fallbackIllnessKeyMap
  | .fetchallMock => fallbackIllnessKeyMap
  | .fetchallOk r =>
    match coerceToPairs r with
    | .error _ => fallbackIllnessKeyMap
    | .ok rows =>
      if rows = [] then fallbackIllnessKeyMap
      else
        let m := buildIllnessMap rows
        if m = [] then fallbackIllnessKeyMap else m

/-! ## Illness inference engine (`IllnessInferenceEngine.infer_illness`) -/

/-- One configured inference rule.  `ruleMatches title` embeds
`re.search(rule.pattern, title, re.IGNORECASE) is not None` as an opaque
decidable predicate on the title; the priority is the caller-assigned
integer. -/
structure IllnessRule where
  ruleMatches : List Char → Bool
  label : List Char
  priority : Int

/-- Insertion step of a stable ascending sort by priority: the new
element goes after every element whose priority is less than or equal to
its own, exactly as Python `sorted(rules, key=lambda x: x["priority"])`
orders ties by original position. -/
def insertByPriority (x : IllnessRule) : List IllnessRule → List IllnessRule
  | [] => [x]
  | y :: ys =>
    if y.priority ≤ x.priority then y :: insertByPriority x ys
    else x :: y :: ys

/-- Stable sort by ascending priority (`sorted` with a key function). -/
def sortByPriority (rules : List IllnessRule) : List IllnessRule :=
  rules.foldl (fun acc x => insertByPriority x acc) []

/-- `infer_illness`: override lookup first, then the first matching rule
in stable ascending-priority order, then the UNKNOWN default. -/
def inferIllness (rules : List IllnessRule)
    (overrides : List (List Char × List Char))
    (sampleTitle sampleAccession : List Char) : List Char × List Char :=
  match dictGet overrides sampleAccession with
  | some label => (label, "override".data)
  | none =>
    match (sortByPriority rules).find? (fun r => r.ruleMatches sampleTitle) with
    | some rule => (rule.label, "regex".data)
    | none => ("UNKNOWN".data, "default".data)

/-! ## Platform normalization engine
(`PlatformNormalizationEngine.normalize_platform`, `_infer_manufacturer`) -/

/-- Index of the first close parenthesis of the list, if any. -/
def firstCloseIdx : List Char → Option Nat
  | [] => none
  | c :: cs => if c = ')' then some 0 else (firstCloseIdx cs).map (· + 1)

/-- Attempt of the pattern `(.+)\(([^)]+)\)` with the first group ending
exactly at position `i`: position `i` must hold an open parenthesis, and
the first close parenthesis after it must leave a nonempty middle run
(the greedy `[^)]+` stops at the first close parenthesis). -/
def parenMatchAt (s : List Char) (i : Nat) :
    Option (List Char × List Char) :=
  match s.drop i with
  | [] => none
  | c :: rest =>
    if c = '(' then
      match firstCloseIdx rest with
      | some k => if 1 ≤ k then some (s.take i, rest.take k) else none
      | none => none
    else none

/-- Backtracking of the greedy `.+`: try the longest first group first,
so the rightmost viable open parenthesis wins; index 0 is excluded
because `.+` must consume at least one character. -/
def parenSearchFrom (s : List Char) : Nat → Option (List Char × List Char)
  | 0 => none
  | i + 1 =>
    match parenMatchAt s (i + 1) with
    | some r => some r
    | none => parenSearchFrom s i

/-- The Python regex match of pattern `(.+)\(([^)]+)\)` against the raw
platform descriptor: the two captured groups
when the anchored-at-start pattern matches (trailing text is permitted,
as for `re.match`). -/
def pyMatchNameParen (s : List Char) : Option (List Char × List Char) :=
  parenSearchFrom s (s.length - 1)

/-- The default `manufacturer` keyword table, in dict iteration
(insertion) order. -/
def defaultManufacturerLookup : List (List Char × List Char) :=
  [("illumina".data, "Illumina".data),
   ("affymetrix".data, "Affymetrix".data),
   ("agilent".data, "Agilent".data)]

/-- `_infer_manufacturer`: first keyword of the lookup table that is a
substring of the lower-cased platform name, else Unknown. -/
def inferManufacturer (lookup : List (List Char × List Char))
    (platformName : List Char) : List Char :=
  let platformLower := pyLower platformName
  match lookup.find? (fun kv => containsSub kv.1 platformLower) with
  | some kv => kv.2
  | none => "Unknown".data

/-- The tuple returned by `normalize_platform`. -/
structure PlatformInfo where
  accession : List Char
  name : List Char
  manufacturer : List Char
  technology : List Char
deriving DecidableEq, Repr

/-- `normalize_platform`: split a `Name (Accession)` descriptor via the
regex match, trimming the name; otherwise use the raw descriptor for
both; then infer manufacturer from the name and measurement technology
from `(study_technology, platform_name)`. -/
def normalizePlatform (lookup : List (List Char × List Char))
    (platformRaw studyTechnology : List Char) : PlatformInfo :=
  let parsed : List Char × List Char :=
    match pyMatchNameParen platformRaw with
    | some (n, a) => (pyStrip n, a)
    | none => (platformRaw, platformRaw)
  { accession := parsed.2
    name := parsed.1
    manufacturer := inferManufacturer lookup parsed.1
    technology :=
      inferMeasurementTechnology (some studyTechnology) (some parsed.1) }

/-! ## Streaming matrix extractor
(`EnhancedDataExtractor.extract_expression_matrix_streaming`,
`_compute_file_hash`) -/

/-- One long-format record yielded by the streaming extractor, after the
melt, rename and metadata columns of the source.  Cell values are the
raw tab-separated cell text, carried opaquely. -/
structure MeltRec where
  gene_id : List Char
  sample_accession_code : List Char
  expression_value : List Char
  study_accession_code : List Char
  file_hash : List Char
  file_name : List Char
deriving DecidableEq, Repr

/-- The reshaping core of the pandas melt: in column-major order (all
records of the first value column first), one
`(gene cell, column name, value cell)` triple per (row, value column)
pair, where the value columns are every column index other than the
id column `gi`. -/
def meltRows (header : List (List Char)) (gi : Nat)
    (rows : List (List (List Char))) :
    List (List Char × List Char × List Char) :=
  (((List.range header.length).filter (fun j => j ≠ gi)).map
    (fun j => rows.map
      (fun r => (r.getD gi [], header.getD j [], r.getD j [])))).flatten

/-- pandas melt of one record batch with id_vars the single column Gene
and default column ordering: raises `KeyError` (here `.error ()`) when no column
is named `Gene`, else melts with the first `Gene` column as the id
column. -/
def meltBatch (header : List (List Char)) (rows : List (List (List Char))) :
    Except Unit (List (List Char × List Char × List Char)) :=
  match header.findIdx? (fun c => c == "Gene".data) with
  | none => .error ()
  | some gi => .ok (meltRows header gi rows)

/-- Attach the constant metadata columns of one extraction call to a
melted triple (`melted_df.rename` plus the three assigned columns). -/
def mkMeltRec (studyCode fileHash fileName : List Char)
    (t : List Char × List Char × List Char) : MeltRec :=
  { gene_id := t.1
    sample_accession_code := t.2.1
    expression_value := t.2.2
    study_accession_code := studyCode
    file_hash := fileHash
    file_name := fileName }

/-- One yielded batch of `extract_expression_matrix_streaming`: melt the
batch, then attach study code, file hash and file name to every record. -/
def extractBatch (studyCode fileHash fileName : List Char)
    (header : List (List Char)) (rows : List (List (List Char))) :
    Except Unit (List MeltRec) :=
  (meltBatch header rows).map
    (List.map (mkMeltRec studyCode fileHash fileName))

/-- Fuel-indexed worker for `chunksOf`. -/
def chunksOfAux {α : Type} (n : Nat) : Nat → List α → List (List α)
  | 0, _ => []
  | _, [] => []
  | fuel + 1, l => l.take n :: chunksOfAux n fuel (l.drop n)

/-- Split a list into consecutive chunks of at most `n` elements (the
4096-byte read loop of `_compute_file_hash`). -/
def chunksOf {α : Type} (n : Nat) (l : List α) : List (List α) :=
  chunksOfAux n l.length l

/-- `_compute_file_hash`: feed the file bytes to the SHA-256 object in
4096-byte chunks and take the hex digest.  `sha256Hex` is the hashlib
library call; an incremental cryptographic hash consumes the
concatenation of all updated chunks, so it is applied to the flattened
chunk list. -/
def computeFileHash (sha256Hex : List Nat → List Char)
    (fileBytes : List Nat) : List Char :=
  sha256Hex (chunksOf 4096 fileBytes).flatten

/-- Sequence a fallible batch transformation over a generator: the first
raised error propagates, as for a Python generator loop. -/
def mapExcept {A B : Type} (f : A → Except Unit B) :
    List A → Except Unit (List B)
  | [] => .ok []
  | x :: xs =>
    match f x with
    | .error e => .error e
    | .ok y =>
      match mapExcept f xs with
      | .error e => .error e
      | .ok ys => .ok (y :: ys)

/-- The whole streaming extraction call: the hash is computed once from
the file bytes, then every batch produced by the pyarrow reader is
melted and tagged.  `batches` is the batching the reader chose; the
caller-facing property `IsBatchingOf` below says which batchings the
reader can produce. -/
def extractExpressionMatrixStreaming (sha256Hex : List Nat → List Char)
    (fileBytes : List Nat) (fileName studyCode : List Char)
    (header : List (List Char)) (batches : List (List (List (List Char)))) :
    Except Unit (List (List MeltRec)) :=
  let fileHash := computeFileHash sha256Hex fileBytes
  mapExcept (extractBatch studyCode fileHash fileName header) batches

/-- A batching of the data rows of the matrix file as the pyarrow
streaming reader can produce it: consecutive nonempty slices that
together are exactly the rows. -/
def IsBatchingOf (batches : List (List (List (List Char))))
    (rows : List (List (List Char))) : Prop :=
  batches.flatten = rows ∧ ¬ [] ∈ batches

/-- The `records_extracted` statistic: the generator adds the length of
every yielded melted batch. -/
def recordsExtracted (batchRecs : List (List MeltRec)) : Nat :=
  (batchRecs.map List.length).sum

/-! ## Data loader
(`EnhancedDataLoader._bulk_load_expression`, `_upsert_samples`,
`load_all_data` statistics) -/

/-- One tuple sent to the `staging.expression_rows` insert. -/
structure InsertedRow where
  study_accession_code : List Char
  batch_id : List Char
  gene_id : List Char
  sample_accession_code : List Char
  expression_value : List Char
  file_name : List Char
  file_hash : List Char
deriving DecidableEq, Repr

/-- `_bulk_load_expression`: per chunk, map each sample accession code
through the resolved sample-key dict, drop the rows with no resolved key
(`dropna` on the mapped column), insert the remaining rows and add their
count to the running total; unmapped rows never raise.  One fold step
processes one yielded chunk. -/
def bulkLoadStep (sampleKeys : List (List Char × Int)) (batchId : List Char)
    (acc : Nat × List InsertedRow) (chunk : List MeltRec) :
    Nat × List InsertedRow :=
  let kept := chunk.filter
    (fun r => (dictGet sampleKeys r.sample_accession_code).isSome)
  let tuples := kept.map (fun r =>
    { study_accession_code := r.study_accession_code
      batch_id := batchId
      gene_id := r.gene_id
      sample_accession_code := r.sample_accession_code
      expression_value := r.expression_value
      file_name := r.file_name
      file_hash := r.file_hash : InsertedRow })
  (acc.1 + tuples.length, acc.2 ++ tuples)

/-- The whole `_bulk_load_expression` loop: the final `total_records`
together with every inserted tuple in order. -/
def bulkLoadExpression (chunks : List (List MeltRec))
    (sampleKeys : List (List Char × Int)) (batchId : List Char) :
    Nat × List InsertedRow :=
  chunks.foldl (bulkLoadStep sampleKeys batchId) (0, [])

/-- Number of expression rows the bulk load drops because their sample
accession code resolves to no sample key. -/
def droppedRowCount (chunks : List (List MeltRec))
    (sampleKeys : List (List Char × Int)) : Nat :=
  (chunks.map (fun chunk => (chunk.filter
    (fun r => (dictGet sampleKeys r.sample_accession_code).isNone)).length)).sum

/-- The loader statistics dictionary (`load_stats` counters; the duration
and message lists do not appear in any verified property). -/
structure LoadStats where
  tables_loaded : Nat
  records_inserted : Nat
  records_updated : Nat
  records_failed : Nat
deriving DecidableEq, Repr

/-- `load_stats` as initialised in `EnhancedDataLoader.__init__`. -/
def initLoadStats : LoadStats :=
  { tables_loaded := 0, records_inserted := 0, records_updated := 0,
    records_failed := 0 }

/-- The statistics update `load_all_data` performs after the bulk load:
`records_inserted` is set to the returned total and `tables_loaded` to 5;
no other counter is touched anywhere in the load path. -/
def loadAllDataStats (stats : LoadStats) (recordsLoaded : Nat) : LoadStats :=
  { stats with records_inserted := recordsLoaded, tables_loaded := 5 }

/-- The fields of a transformed sample record that determine the illness
key attached by `_upsert_samples` (the remaining columns pass through to
the MERGE statement unchanged and influence no verified property). -/
structure SampleRecord where
  sample_accession_code : List Char
  illness_inferred : List Char
deriving DecidableEq, Repr

/-- The illness-key resolution of `_upsert_samples` for one sample:
the map lookup of the inferred label with the UNKNOWN entry of the map
as the default argument of dict get.
Python evaluates the default argument eagerly, so a map without the
UNKNOWN key raises `KeyError` (modelled `none`) for every sample. -/
def sampleIllnessKey (illnessKeyMap : List (List Char × PyKey))
    (illnessInferred : List Char) : Option PyKey :=
  match dictGet illnessKeyMap "UNKNOWN".data with
  | none => none
  | some dflt => some ((dictGet illnessKeyMap illnessInferred).getD dflt)

/-- The per-sample loop of `_upsert_samples`, projected onto the illness
keys it attaches: the `(sample accession, illness key)` pairs bound into
the MERGE statement, or `none` when the UNKNOWN lookup raises. -/
def upsertSamplesIllnessKeys (illnessKeyMap : List (List Char × PyKey)) :
    List SampleRecord → Option (List (List Char × PyKey))
  | [] => some []
  | r :: rs =>
    match sampleIllnessKey illnessKeyMap r.illness_inferred with
    | none => none
    | some k =>
      match upsertSamplesIllnessKeys illnessKeyMap rs with
      | none => none
      | some l => some ((r.sample_accession_code, k) :: l)

/-! ## Pipeline orchestrator
(`EnhancedETLOrchestrator.execute_study_pipeline`,
`execute_full_pipeline`) -/

/-- Outcome of the extract-transform-load body for one study: success
with the record count its load reported, or an exception carrying its
message (an extraction failure raises before any later stage runs, and
every exception reaches the same per-study handler). -/
inductive StudyOutcome where
  | ok (recordsInserted : Nat)
  | raises (msg : List Char)
deriving DecidableEq, Repr

/-- The per-study entries of `study_stats` that the claims constrain. -/
structure StudyResult where
  study_code : List Char
  success : Bool
  error : Option (List Char)
  tb : Option (List Char)
deriving DecidableEq, Repr

/-- The orchestrator counters of `pipeline_stats`. -/
structure PipelineStats where
  studies_processed : Nat
  studies_failed : Nat
  total_records_processed : Nat
  errors : List (List Char)
deriving DecidableEq, Repr

/-- `pipeline_stats` as initialised in the orchestrator constructor. -/
def initPipelineStats : PipelineStats :=
  { studies_processed := 0, studies_failed := 0,
    total_records_processed := 0, errors := [] }

/-- `execute_study_pipeline`: on success mark the study successful and
bump the processed and record counters; on any exception store the
message and the formatted traceback in the study result (`formatExc`
models `traceback.format_exc()`), bump the failed counter and append to
the global error list, without re-raising. -/
def executeStudyPipeline (formatExc : List Char → List Char)
    (stats : PipelineStats) (studyCode : List Char)
    (outcome : StudyOutcome) : PipelineStats × StudyResult :=
  match outcome with
  | .ok n =>
    ({ stats with
        studies_processed := stats.studies_processed + 1
        total_records_processed := stats.total_records_processed + n },
     { study_code := studyCode, success := true, error := none, tb := none })
  | .raises msg =>
    ({ stats with
        studies_failed := stats.studies_failed + 1
        errors := stats.errors
          ++ ["Study ".data ++ studyCode ++ ": ".data ++ msg] },
     { study_code := studyCode, success := false, error := some msg,
       tb := some (formatExc msg) })

/-- The final report of `execute_full_pipeline`. -/
structure PipelineReport where
  studies_processed : Nat
  studies_failed : Nat
  total_records_processed : Nat
  study_results : List StudyResult
  errors : List (List Char)
deriving DecidableEq, Repr

/-- One iteration of the study loop of `execute_full_pipeline`: run the
per-study pipeline on the accumulated statistics and append the study
result. -/
def fullPipelineStep (formatExc : List Char → List Char)
    (acc : PipelineStats × List StudyResult)
    (st : List Char × StudyOutcome) : PipelineStats × List StudyResult :=
  let step := executeStudyPipeline formatExc acc.1 st.1 st.2
  (step.1, acc.2 ++ [step.2])

/-- Whether the extract-transform-load body of a study completes without
raising. -/
def studyOk (st : List Char × StudyOutcome) : Bool :=
  match st.2 with
  | .ok _ => true
  | .raises _ => false

/-- `execute_full_pipeline` over caller-supplied study codes on a fresh
orchestrator: run every study in order through the per-study pipeline,
collect the per-study results, and report the accumulated counters. -/
def executeFullPipeline (formatExc : List Char → List Char)
    (studies : List (List Char × StudyOutcome)) : PipelineReport :=
  let fin := studies.foldl (fullPipelineStep formatExc)
    (initPipelineStats, [])
  { studies_processed := fin.1.studies_processed
    studies_failed := fin.1.studies_failed
    total_records_processed := fin.1.total_records_processed
    study_results := fin.2
    errors := fin.1.errors }

example :
    pyMatchNameParen "Illumina Genome Analyzer (GPL1111)".data
      = some ("Illumina Genome Analyzer ".data, "GPL1111".data) := by decide

example : pyMatchNameParen "Illumina HiSeq".data = none := by decide

example : pyStrip "  ab c  ".data = "ab c".data := by decide
example : pyUpper " sepsis".data = " SEPSIS".data := by decide
example : pySplit " rna seq ".data = ["rna".data, "seq".data] := by decide
example : subRunsWithSpace isDashUnderscore "rna--_seq".data = "rna seq".data := by decide
example : containsSub "rna seq".data " my rna seq x".data = true := by decide
example : dictGet [("A".data, 1), ("B".data, 2)] "B".data = some 2 := by rfl

example :
    inferMeasurementTechnology (some "RNA_SEQ".data) none = "RNA-SEQ".data := by
  decide

example :
    inferMeasurementTechnology (some "MicroArray chip".data) none
      = "MICROARRAY".data := by decide

example :
    inferMeasurementTechnology none (some "Array".data) = "MICROARRAY".data := by
  decide

example :
    inferMeasurementTechnology (some "weird".data) (some "weird".data)
      = "OTHER".data := by decide

theorem inferMeasurementTechnology_eq_spec
    (studyTechnology platformName : Option (List Char)) :
    inferMeasurementTechnology studyTechnology platformName
      = specMeasurementTechnology studyTechnology platformName := by
  unfold inferMeasurementTechnology specMeasurementTechnology specTierVerdict
  by_cases hs : normaliseDescriptor studyTechnology = [] <;>
    by_cases hp : normaliseDescriptor platformName = [] <;>
      simp only [hs, hp, ne_eq, not_true_eq_false, not_false_eq_true,
        ite_true, ite_false] <;>
      (repeat' split) <;> simp_all


/-! ## Claim C5: measurement technology inference -/

/-- C5: measurement-technology inference tests the normalised study
descriptor first (microarray substring, then the rnaseq compact form,
the rna seq phrase, or rna with seq or sequencing tokens); only when the
study descriptor yields no verdict is the identical test applied to the
platform descriptor, where a standalone array token also counts as
MICROARRAY; if neither yields a verdict the result is OTHER.  The
descriptors RNA_SEQ, rna-seq and RNA SEQ all yield RNA-SEQ, in either
position, and an unrecognised descriptor yields OTHER. -/
theorem c5_measurement_technology_inference :
    (∀ s p, inferMeasurementTechnology s p = specMeasurementTechnology s p)
    ∧ inferMeasurementTechnology (some "RNA_SEQ".data) none = "RNA-SEQ".data
    ∧ inferMeasurementTechnology (some "rna-seq".data) none = "RNA-SEQ".data
    ∧ inferMeasurementTechnology (some "RNA SEQ".data) none = "RNA-SEQ".data
    ∧ inferMeasurementTechnology none (some "RNA_SEQ".data) = "RNA-SEQ".data
    ∧ inferMeasurementTechnology none (some "rna-seq".data) = "RNA-SEQ".data
    ∧ inferMeasurementTechnology none (some "RNA SEQ".data) = "RNA-SEQ".data
    ∧ inferMeasurementTechnology (some "mystery kit".data)
        (some "mystery kit".data) = "OTHER".data :=
  ⟨inferMeasurementTechnology_eq_spec, by decide, by decide, by decide,
   by decide, by decide, by decide, by decide⟩

/-! ## Claim C3: illness key fallback -/

/-- C3: whenever the illness lookup source is absent, does not support
row fetching, raises on fetch, returns a result that cannot be coerced
into label and key pairs, returns no rows, or yields no usable row after
normalisation, the returned mapping is exactly the built-in map
UNKNOWN 0, CONTROL 1, SEPSIS 2, SEPTIC_SHOCK 3, NO_SEPSIS 4. -/
theorem c3_illness_key_fallback :
    getIllnessKeyMap .noCursor = fallbackIllnessKeyMap
    ∧ getIllnessKeyMap .fetchallMissing = fallbackIllnessKeyMap
    ∧ getIllnessKeyMap .fetchallRaises = fallbackIllnessKeyMap
    ∧ (∀ r, coerceToPairs r = .error () →
        getIllnessKeyMap (.fetchallOk r) = fallbackIllnessKeyMap)
    ∧ (∀ r, coerceToPairs r = .ok [] →
        getIllnessKeyMap (.fetchallOk r) = fallbackIllnessKeyMap)
    ∧ (∀ r rows, coerceToPairs r = .ok rows → buildIllnessMap rows = [] →
        getIllnessKeyMap (.fetchallOk r) = fallbackIllnessKeyMap)
    ∧ fallbackIllnessKeyMap
        = [("UNKNOWN".data, .int 0), ("CONTROL".data, .int 1),
           ("SEPSIS".data, .int 2), ("SEPTIC_SHOCK".data, .int 3),
           ("NO_SEPSIS".data, .int 4)] := by
  refine ⟨rfl, rfl, rfl, ?_, ?_, ?_, rfl⟩
  · intro r h
    simp [getIllnessKeyMap, h]
  · intro r h
    simp [getIllnessKeyMap, h]
  · intro r rows h hb
    by_cases hr : rows = []
    · simp [getIllnessKeyMap, h, hr]
    · simp [getIllnessKeyMap, h, hr, hb]

/-- Witness for C3 at concrete failing sources: a string fetch result,
an empty iterable, and a single row whose label is whitespace only. -/
theorem c3_illness_key_fallback_witness :
    getIllnessKeyMap (.fetchallOk .stringResult) = fallbackIllnessKeyMap
    ∧ getIllnessKeyMap (.fetchallOk (.iterableResult []))
        = fallbackIllnessKeyMap
    ∧ getIllnessKeyMap
        (.fetchallOk (.iterableResult [.pairRow "  ".data (.int 7)]))
        = fallbackIllnessKeyMap := by
  refine ⟨?_, ?_, ?_⟩
  · exact c3_illness_key_fallback.2.2.2.1 _ rfl
  · exact c3_illness_key_fallback.2.2.2.2.1 _ rfl
  · exact c3_illness_key_fallback.2.2.2.2.2.1 _ [("  ".data, .int 7)] rfl
      (by decide)

/-! ## Claim C10: illness key attachment during sample upsert -/

/-- C10: when the resolved illness key map contains the UNKNOWN key,
every sample processed by the upsert loop is attached the map value at
its inferred illness label when that label is present and the UNKNOWN
value otherwise; under the built-in fallback map, a sample whose label
is absent always receives illness key 0. -/
theorem c10_sample_illness_key (illnessKeyMap : List (List Char × PyKey))
    (d : PyKey) (h : dictGet illnessKeyMap "UNKNOWN".data = some d)
    (records : List SampleRecord) :
    upsertSamplesIllnessKeys illnessKeyMap records
      = some (records.map (fun r =>
          (r.sample_accession_code,
           (dictGet illnessKeyMap r.illness_inferred).getD d)))
    ∧ (∀ lbl k, dictGet illnessKeyMap lbl = some k →
        sampleIllnessKey illnessKeyMap lbl = some k)
    ∧ (∀ lbl, dictGet illnessKeyMap lbl = none →
        sampleIllnessKey illnessKeyMap lbl = some d)
    ∧ (∀ lbl, dictGet fallbackIllnessKeyMap lbl = none →
        sampleIllnessKey fallbackIllnessKeyMap lbl = some (.int 0)) := by
  have hu : dictGet fallbackIllnessKeyMap "UNKNOWN".data = some (.int 0) := by
    decide
  refine ⟨?_, ?_, ?_, ?_⟩
  · induction records with
    | nil => simp [upsertSamplesIllnessKeys]
    | cons r rs ih => simp [upsertSamplesIllnessKeys, sampleIllnessKey, h, ih]
  · intro lbl k hk
    simp [sampleIllnessKey, h, hk]
  · intro lbl hn
    simp [sampleIllnessKey, h, hn]
  · intro lbl hn
    simp [sampleIllnessKey, hu, hn]

/-- Witness for C10: under the fallback map a SEPSIS sample gets key 2
and a sample with an unmapped label gets key 0. -/
theorem c10_sample_illness_key_witness :
    upsertSamplesIllnessKeys fallbackIllnessKeyMap
      [{ sample_accession_code := "S1".data, illness_inferred := "SEPSIS".data },
       { sample_accession_code := "S2".data, illness_inferred := "MYSTERY".data }]
      = some [("S1".data, PyKey.int 2), ("S2".data, PyKey.int 0)] := by
  have h := (c10_sample_illness_key fallbackIllnessKeyMap (.int 0) (by decide)
    [{ sample_accession_code := "S1".data, illness_inferred := "SEPSIS".data },
     { sample_accession_code := "S2".data, illness_inferred := "MYSTERY".data }]).1
  rw [h]
  decide

/-! ## Claim C2: unmapped fact rows -/

theorem bulkLoad_foldl_shift (sampleKeys : List (List Char × Int))
    (batchId : List Char) :
    ∀ (chunks : List (List MeltRec)) (acc : Nat × List InsertedRow),
      chunks.foldl (bulkLoadStep sampleKeys batchId) acc
        = (acc.1 + (bulkLoadExpression chunks sampleKeys batchId).1,
           acc.2 ++ (bulkLoadExpression chunks sampleKeys batchId).2) := by
  intro chunks
  induction chunks with
  | nil => intro acc; simp [bulkLoadExpression]
  | cons c cs ih =>
    intro acc
    have h1 : bulkLoadExpression (c :: cs) sampleKeys batchId
        = cs.foldl (bulkLoadStep sampleKeys batchId)
            (bulkLoadStep sampleKeys batchId (0, []) c) := rfl
    rw [List.foldl_cons, ih, h1, ih]
    simp only [bulkLoadStep, bulkLoadExpression]
    simp [Prod.ext_iff, Nat.add_assoc]

theorem length_filter_some_add_none (sampleKeys : List (List Char × Int)) :
    ∀ l : List MeltRec,
      (l.filter (fun r =>
          (dictGet sampleKeys r.sample_accession_code).isSome)).length
        + (l.filter (fun r =>
          (dictGet sampleKeys r.sample_accession_code).isNone)).length
      = l.length := by
  intro l
  induction l with
  | nil => rfl
  | cons r rs ih =>
    cases h : dictGet sampleKeys r.sample_accession_code <;>
      simp [List.filter_cons, h] <;> omega

/-- C2 counterexample: two loads, one dropping an unmapped expression row
and one dropping none, return identical totals, identical inserted rows
and identical loader statistics, so the number of dropped rows is not
counted in, nor recoverable from, the loader statistics. -/
theorem c2_dropped_count_not_in_stats_counterexample :
    droppedRowCount
        [[{ gene_id := "G1".data, sample_accession_code := "S1".data,
            expression_value := "1.5".data, study_accession_code := "ST".data,
            file_hash := "H".data, file_name := "f.tsv".data },
          { gene_id := "G1".data, sample_accession_code := "SX".data,
            expression_value := "2.5".data, study_accession_code := "ST".data,
            file_hash := "H".data, file_name := "f.tsv".data }]]
        [("S1".data, 7)] = 1
    ∧ droppedRowCount
        [[{ gene_id := "G1".data, sample_accession_code := "S1".data,
            expression_value := "1.5".data, study_accession_code := "ST".data,
            file_hash := "H".data, file_name := "f.tsv".data }]]
        [("S1".data, 7)] = 0
    ∧ bulkLoadExpression
        [[{ gene_id := "G1".data, sample_accession_code := "S1".data,
            expression_value := "1.5".data, study_accession_code := "ST".data,
            file_hash := "H".data, file_name := "f.tsv".data },
          { gene_id := "G1".data, sample_accession_code := "SX".data,
            expression_value := "2.5".data, study_accession_code := "ST".data,
            file_hash := "H".data, file_name := "f.tsv".data }]]
        [("S1".data, 7)] "B".data
      = bulkLoadExpression
        [[{ gene_id := "G1".data, sample_accession_code := "S1".data,
            expression_value := "1.5".data, study_accession_code := "ST".data,
            file_hash := "H".data, file_name := "f.tsv".data }]]
        [("S1".data, 7)] "B".data
    ∧ loadAllDataStats initLoadStats
        (bulkLoadExpression
          [[{ gene_id := "G1".data, sample_accession_code := "S1".data,
              expression_value := "1.5".data, study_accession_code := "ST".data,
              file_hash := "H".data, file_name := "f.tsv".data },
            { gene_id := "G1".data, sample_accession_code := "SX".data,
              expression_value := "2.5".data, study_accession_code := "ST".data,
              file_hash := "H".data, file_name := "f.tsv".data }]]
          [("S1".data, 7)] "B".data).1
      = loadAllDataStats initLoadStats
        (bulkLoadExpression
          [[{ gene_id := "G1".data, sample_accession_code := "S1".data,
              expression_value := "1.5".data, study_accession_code := "ST".data,
              file_hash := "H".data, file_name := "f.tsv".data }]]
          [("S1".data, 7)] "B".data).1 := by
  refine ⟨by decide, by decide, by decide, by decide⟩

/-- C2 amended: every expression row whose sample accession code has no
resolved sample key is excluded from the inserted rows and from the
loaded-record count without aborting the load, and inserted plus dropped
rows account for every incoming row; the loaded count is exposed through
the loader statistics, but the number of dropped rows is not separately
counted there (the records_failed counter stays 0). -/
theorem c2_unmapped_rows_dropped (chunks : List (List MeltRec))
    (sampleKeys : List (List Char × Int)) (batchId : List Char) :
    (bulkLoadExpression chunks sampleKeys batchId).1
      = (bulkLoadExpression chunks sampleKeys batchId).2.length
    ∧ (bulkLoadExpression chunks sampleKeys batchId).1
        + droppedRowCount chunks sampleKeys
      = (chunks.map List.length).sum
    ∧ (∀ t, t ∈ (bulkLoadExpression chunks sampleKeys batchId).2 →
        (dictGet sampleKeys t.sample_accession_code).isSome = true)
    ∧ loadAllDataStats initLoadStats
        (bulkLoadExpression chunks sampleKeys batchId).1
      = { tables_loaded := 5,
          records_inserted := (bulkLoadExpression chunks sampleKeys batchId).1,
          records_updated := 0, records_failed := 0 } := by
  refine ⟨?_, ?_, ?_, rfl⟩
  · induction chunks with
    | nil => rfl
    | cons c cs ih =>
      have h1 : bulkLoadExpression (c :: cs) sampleKeys batchId
          = cs.foldl (bulkLoadStep sampleKeys batchId)
              (bulkLoadStep sampleKeys batchId (0, []) c) := rfl
      rw [h1, bulkLoad_foldl_shift]
      simp only [bulkLoadStep]
      simp [ih, List.length_append]
  · induction chunks with
    | nil => rfl
    | cons c cs ih =>
      have h1 : bulkLoadExpression (c :: cs) sampleKeys batchId
          = cs.foldl (bulkLoadStep sampleKeys batchId)
              (bulkLoadStep sampleKeys batchId (0, []) c) := rfl
      have h2 : droppedRowCount (c :: cs) sampleKeys
          = (c.filter (fun r =>
              (dictGet sampleKeys r.sample_accession_code).isNone)).length
            + droppedRowCount cs sampleKeys := by
        simp [droppedRowCount]
      rw [h1, bulkLoad_foldl_shift, h2]
      simp only [bulkLoadStep, List.map_cons, List.sum_cons]
      have h3 := length_filter_some_add_none sampleKeys c
      simp only [List.length_map, Nat.zero_add]
      omega
  · induction chunks with
    | nil =>
      intro t ht
      simp [bulkLoadExpression] at ht
    | cons c cs ih =>
      intro t ht
      have h1 : bulkLoadExpression (c :: cs) sampleKeys batchId
          = cs.foldl (bulkLoadStep sampleKeys batchId)
              (bulkLoadStep sampleKeys batchId (0, []) c) := rfl
      rw [h1, bulkLoad_foldl_shift] at ht
      simp only [bulkLoadStep] at ht
      simp only [List.nil_append] at ht
      simp only [List.mem_append] at ht
      rcases ht with ht | ht
      · simp only [List.mem_map] at ht
        obtain ⟨r, hr, hrt⟩ := ht
        have := List.of_mem_filter hr
        subst hrt
        simpa using this
      · exact ih t ht

/-! ## Claim C7: per-study failure isolation -/

theorem executeStudy_result_stats_free (f : List Char → List Char)
    (s1 s2 : PipelineStats) (c : List Char) (o : StudyOutcome) :
    (executeStudyPipeline f s1 c o).2 = (executeStudyPipeline f s2 c o).2 := by
  cases o <;> rfl

theorem fullPipeline_foldl (f : List Char → List Char) :
    ∀ (studies : List (List Char × StudyOutcome))
      (acc : PipelineStats × List StudyResult),
      (studies.foldl (fullPipelineStep f) acc).1.studies_processed
        = acc.1.studies_processed + (studies.filter studyOk).length
      ∧ (studies.foldl (fullPipelineStep f) acc).1.studies_failed
        = acc.1.studies_failed
          + (studies.filter (fun st => ! studyOk st)).length
      ∧ (studies.foldl (fullPipelineStep f) acc).2
        = acc.2 ++ studies.map (fun st =>
            (executeStudyPipeline f initPipelineStats st.1 st.2).2) := by
  intro studies
  induction studies with
  | nil => intro acc; simp
  | cons st sts ih =>
    intro acc
    obtain ⟨c, o⟩ := st
    cases o with
    | ok n =>
      refine ⟨?_, ?_, ?_⟩
      · rw [List.foldl_cons, (ih _).1]
        simp [fullPipelineStep, executeStudyPipeline, studyOk,
          List.filter_cons]
        omega
      · rw [List.foldl_cons, (ih _).2.1]
        simp [fullPipelineStep, executeStudyPipeline, studyOk,
          List.filter_cons]
      · rw [List.foldl_cons, (ih _).2.2]
        simp [fullPipelineStep, executeStudyPipeline]
    | raises msg =>
      refine ⟨?_, ?_, ?_⟩
      · rw [List.foldl_cons, (ih _).1]
        simp [fullPipelineStep, executeStudyPipeline, studyOk,
          List.filter_cons]
      · rw [List.foldl_cons, (ih _).2.1]
        simp [fullPipelineStep, executeStudyPipeline, studyOk,
          List.filter_cons]
        omega
      · rw [List.foldl_cons, (ih _).2.2]
        simp [fullPipelineStep, executeStudyPipeline]

/-- C7: in a batch of studies in which exactly one study raises during
extraction and all others complete, the pipeline processes every study
to completion and its report counts all but the failing study as
processed and exactly one study as failed, with the error message and
the formatted traceback of the failing study recorded in the per-study
result of that study. -/
theorem c7_per_study_failure_isolation (formatExc : List Char → List Char)
    (pre post : List (List Char × StudyOutcome)) (code msg : List Char)
    (hpre : ∀ st ∈ pre, studyOk st = true)
    (hpost : ∀ st ∈ post, studyOk st = true) :
    (executeFullPipeline formatExc
        (pre ++ (code, .raises msg) :: post)).studies_processed
      = pre.length + post.length
    ∧ (executeFullPipeline formatExc
        (pre ++ (code, .raises msg) :: post)).studies_failed = 1
    ∧ (executeFullPipeline formatExc
        (pre ++ (code, .raises msg) :: post)).study_results.length
      = pre.length + 1 + post.length
    ∧ (executeFullPipeline formatExc
        (pre ++ (code, .raises msg) :: post)).study_results[pre.length]?
      = some { study_code := code, success := false, error := some msg,
               tb := some (formatExc msg) } := by
  have hfold := fullPipeline_foldl formatExc
    (pre ++ (code, .raises msg) :: post) (initPipelineStats, [])
  have hpre1 : pre.filter studyOk = pre := List.filter_eq_self.mpr hpre
  have hpost1 : post.filter studyOk = post := List.filter_eq_self.mpr hpost
  have hpre2 : pre.filter (fun st => ! studyOk st) = [] := by
    rw [List.filter_eq_nil_iff]
    intro st hst
    simp [hpre st hst]
  have hpost2 : post.filter (fun st => ! studyOk st) = [] := by
    rw [List.filter_eq_nil_iff]
    intro st hst
    simp [hpost st hst]
  refine ⟨?_, ?_, ?_, ?_⟩
  · show (List.foldl (fullPipelineStep formatExc) (initPipelineStats, [])
      (pre ++ (code, .raises msg) :: post)).1.studies_processed = _
    rw [hfold.1]
    simp [List.filter_append, List.filter_cons, studyOk, hpre1, hpost1,
      initPipelineStats]
  · show (List.foldl (fullPipelineStep formatExc) (initPipelineStats, [])
      (pre ++ (code, .raises msg) :: post)).1.studies_failed = _
    rw [hfold.2.1]
    simp only [List.filter_append, List.filter_cons, hpre2, hpost2]
    simp [studyOk, initPipelineStats]
  · show (List.foldl (fullPipelineStep formatExc) (initPipelineStats, [])
      (pre ++ (code, .raises msg) :: post)).2.length = _
    rw [hfold.2.2]
    simp
    omega
  · show (List.foldl (fullPipelineStep formatExc) (initPipelineStats, [])
      (pre ++ (code, .raises msg) :: post)).2[pre.length]? = _
    rw [hfold.2.2]
    rw [List.nil_append, List.map_append, List.map_cons]
    rw [List.getElem?_append_right (by simp)]
    simp [executeStudyPipeline]

/-- Witness for C7: a three-study batch whose middle study raises. -/
theorem c7_per_study_failure_isolation_witness :
    (executeFullPipeline (fun m => "TB ".data ++ m)
        ([("A".data, .ok 5)]
          ++ ("B".data, .raises "boom".data) :: [("C".data, .ok 2)])).studies_processed
      = 2
    ∧ (executeFullPipeline (fun m => "TB ".data ++ m)
        ([("A".data, .ok 5)]
          ++ ("B".data, .raises "boom".data) :: [("C".data, .ok 2)])).studies_failed
      = 1
    ∧ (executeFullPipeline (fun m => "TB ".data ++ m)
        ([("A".data, .ok 5)]
          ++ ("B".data, .raises "boom".data) :: [("C".data, .ok 2)])).study_results[1]?
      = some { study_code := "B".data, success := false,
               error := some "boom".data, tb := some "TB boom".data } := by
  have h := c7_per_study_failure_isolation (fun m => "TB ".data ++ m)
    [("A".data, .ok 5)] [("C".data, .ok 2)] "B".data "boom".data
    (by decide) (by decide)
  exact ⟨h.1, h.2.1, h.2.2.2⟩

/-! ## Claim C4: illness inference precedence -/

theorem insertByPriority_perm (x : IllnessRule) (l : List IllnessRule) :
    List.Perm (insertByPriority x l) (x :: l) := by
  induction l with
  | nil => exact List.Perm.refl _
  | cons y ys ih =>
    by_cases h : y.priority ≤ x.priority
    · simp only [insertByPriority, if_pos h]
      exact (ih.cons y).trans (List.Perm.swap x y ys)
    · simp only [insertByPriority, if_neg h]
      exact List.Perm.refl _

theorem insertByPriority_pairwise (x : IllnessRule) (l : List IllnessRule)
    (h : l.Pairwise (fun a b => a.priority ≤ b.priority)) :
    (insertByPriority x l).Pairwise (fun a b => a.priority ≤ b.priority) := by
  induction l with
  | nil => simp [insertByPriority]
  | cons y ys ih =>
    rcases List.pairwise_cons.mp h with ⟨hy, hys⟩
    by_cases hle : y.priority ≤ x.priority
    · simp only [insertByPriority, if_pos hle]
      refine List.pairwise_cons.mpr ⟨?_, ih hys⟩
      intro z hz
      rcases List.mem_cons.mp ((insertByPriority_perm x ys).mem_iff.mp hz)
        with rfl | hz3
      · exact hle
      · exact hy z hz3
    · simp only [insertByPriority, if_neg hle]
      refine List.pairwise_cons.mpr ⟨?_, h⟩
      intro z hz
      rcases List.mem_cons.mp hz with rfl | hz3
      · exact le_of_not_le hle
      · exact le_trans (le_of_not_le hle) (hy z hz3)

theorem insertByPriority_filter_ne (x : IllnessRule) (p : Int)
    (hne : ¬ x.priority = p) (l : List IllnessRule) :
    (insertByPriority x l).filter (fun s => s.priority == p)
      = l.filter (fun s => s.priority == p) := by
  induction l with
  | nil => simp [insertByPriority, hne]
  | cons y ys ih =>
    by_cases hle : y.priority ≤ x.priority
    · simp only [insertByPriority, if_pos hle, List.filter_cons, ih]
    · simp only [insertByPriority, if_neg hle, List.filter_cons]
      have hx : (x.priority == p) = false := by
        simp [hne]
      simp [hx]

theorem insertByPriority_filter_eq (x : IllnessRule) (l : List IllnessRule)
    (h : l.Pairwise (fun a b => a.priority ≤ b.priority)) :
    (insertByPriority x l).filter (fun s => s.priority == x.priority)
      = l.filter (fun s => s.priority == x.priority) ++ [x] := by
  induction l with
  | nil => simp [insertByPriority]
  | cons y ys ih =>
    rcases List.pairwise_cons.mp h with ⟨hy, hys⟩
    by_cases hle : y.priority ≤ x.priority
    · simp only [insertByPriority, if_pos hle, List.filter_cons, ih hys]
      by_cases hyq : y.priority = x.priority
      · simp [hyq]
      · have hyb : (y.priority == x.priority) = false := by simp [hyq]
        simp [hyb]
    · have hgt : x.priority < y.priority := lt_of_not_ge hle
      have hnil : (y :: ys).filter (fun s => s.priority == x.priority)
          = [] := by
        rw [List.filter_eq_nil_iff]
        intro z hz
        rcases List.mem_cons.mp hz with rfl | hz3
        · simp
          omega
        · have := lt_of_lt_of_le hgt (hy z hz3)
          simp
          omega
      simp only [insertByPriority, if_neg hle]
      rw [List.filter_cons, hnil]
      have hq : (x.priority == x.priority) = true := by simp
      simp [hq]

theorem sortByPriority_foldl_perm :
    ∀ (l acc : List IllnessRule),
      List.Perm (l.foldl (fun a x => insertByPriority x a) acc)
        (acc ++ l) := by
  intro l
  induction l with
  | nil => intro acc; simp
  | cons x xs ih =>
    intro acc
    rw [List.foldl_cons]
    refine (ih _).trans ?_
    refine (List.Perm.append_right xs (insertByPriority_perm x acc)).trans ?_
    exact List.perm_middle.symm

theorem sortByPriority_foldl_pairwise :
    ∀ (l acc : List IllnessRule),
      acc.Pairwise (fun a b => a.priority ≤ b.priority) →
      (l.foldl (fun a x => insertByPriority x a) acc).Pairwise
        (fun a b => a.priority ≤ b.priority) := by
  intro l
  induction l with
  | nil => intro acc h; exact h
  | cons x xs ih =>
    intro acc h
    rw [List.foldl_cons]
    exact ih _ (insertByPriority_pairwise x acc h)

theorem sortByPriority_foldl_filter (p : Int) :
    ∀ (l acc : List IllnessRule),
      acc.Pairwise (fun a b => a.priority ≤ b.priority) →
      (l.foldl (fun a x => insertByPriority x a) acc).filter
          (fun s => s.priority == p)
        = acc.filter (fun s => s.priority == p)
          ++ l.filter (fun s => s.priority == p) := by
  intro l
  induction l with
  | nil => intro acc h; simp
  | cons x xs ih =>
    intro acc h
    rw [List.foldl_cons, ih _ (insertByPriority_pairwise x acc h)]
    by_cases hx : x.priority = p
    · subst hx
      rw [insertByPriority_filter_eq x acc h]
      have hxb : (x.priority == x.priority) = true := by simp
      simp [List.filter_cons, hxb]
    · rw [insertByPriority_filter_ne x p hx acc]
      have hxb : (x.priority == p) = false := by simp [hx]
      simp [List.filter_cons, hxb]

theorem sortByPriority_perm (l : List IllnessRule) :
    List.Perm (sortByPriority l) l :=
  (sortByPriority_foldl_perm l []).trans (by simp)

theorem sortByPriority_pairwise (l : List IllnessRule) :
    (sortByPriority l).Pairwise (fun a b => a.priority ≤ b.priority) :=
  sortByPriority_foldl_pairwise l [] (List.Pairwise.nil)

theorem sortByPriority_filter (l : List IllnessRule) (p : Int) :
    (sortByPriority l).filter (fun s => s.priority == p)
      = l.filter (fun s => s.priority == p) := by
  have := sortByPriority_foldl_filter p l [] (List.Pairwise.nil)
  simpa [sortByPriority] using this

theorem find?_eq_some_decomp {A : Type} (f : A → Bool) :
    ∀ (l : List A) (r : A), l.find? f = some r →
      ∃ l1 l2, l = l1 ++ r :: l2 ∧ (∀ x ∈ l1, f x = false) ∧ f r = true := by
  intro l
  induction l with
  | nil => intro r h; simp at h
  | cons a as ih =>
    intro r h
    by_cases ha : f a = true
    · rw [List.find?_cons_of_pos _ ha] at h
      obtain rfl : a = r := by injection h
      exact ⟨[], as, rfl, by simp, ha⟩
    · rw [List.find?_cons_of_neg _ (by simpa using ha)] at h
      obtain ⟨l1, l2, rfl, h1, h2⟩ := ih r h
      refine ⟨a :: l1, l2, rfl, ?_, h2⟩
      intro x hx
      rcases List.mem_cons.mp hx with rfl | hx2
      · simpa using ha
      · exact h1 x hx2

/-- C4: if the sample accession is a key of the override map,
infer_illness returns the override label with method override, without
consulting any rule; otherwise the first matching rule in ascending
priority order wins with method regex, where a matching rule is returned
only if no other matching rule has a smaller priority and, within its
own priority class, it is the first matching rule in original list order
(stable tie-break); if no rule matches the result is UNKNOWN with method
default. -/
theorem c4_infer_illness (rules : List IllnessRule)
    (overrides : List (List Char × List Char))
    (title accession : List Char) :
    (∀ lbl, dictGet overrides accession = some lbl →
        inferIllness rules overrides title accession
          = (lbl, "override".data))
    ∧ (dictGet overrides accession = none →
        ((∀ r ∈ rules, r.ruleMatches title = false) →
            inferIllness rules overrides title accession
              = ("UNKNOWN".data, "default".data))
        ∧ (∀ r0 ∈ rules, r0.ruleMatches title = true →
            ∃ r, r ∈ rules ∧ r.ruleMatches title = true
              ∧ inferIllness rules overrides title accession
                  = (r.label, "regex".data)
              ∧ (∀ s ∈ rules, s.ruleMatches title = true →
                  r.priority ≤ s.priority)
              ∧ (rules.filter (fun s => s.priority == r.priority)).find?
                  (fun s => s.ruleMatches title) = some r)) := by
  constructor
  · intro lbl hov
    simp [inferIllness, hov]
  · intro hov
    constructor
    · intro hnone
      have hf : (sortByPriority rules).find? (fun r => r.ruleMatches title)
          = none := by
        rw [List.find?_eq_none]
        intro z hz
        simp [hnone z ((sortByPriority_perm rules).subset hz)]
      simp [inferIllness, hov, hf]
    · intro r0 hr0 hm0
      cases hf : (sortByPriority rules).find? (fun r => r.ruleMatches title)
        with
      | none =>
        exfalso
        have := List.find?_eq_none.mp hf r0
          ((sortByPriority_perm rules).symm.subset hr0)
        simp [hm0] at this
      | some r =>
        obtain ⟨l1, l2, hdec, h1, h2⟩ := find?_eq_some_decomp _ _ r hf
        have hrmem : r ∈ rules := (sortByPriority_perm rules).subset
          (by rw [hdec]; exact List.mem_append_right _ (List.mem_cons_self r l2))
        refine ⟨r, hrmem, h2, ?_, ?_, ?_⟩
        · simp [inferIllness, hov, hf]
        · intro s hs hms
          have hs2 : s ∈ l1 ++ r :: l2 := by
            rw [← hdec]
            exact (sortByPriority_perm rules).symm.subset hs
          rcases List.mem_append.mp hs2 with hsl | hsr
          · exact absurd hms (by simp [h1 s hsl])
          · rcases List.mem_cons.mp hsr with rfl | hsl2
            · exact le_refl _
            · have hp := sortByPriority_pairwise rules
              rw [hdec] at hp
              have := (List.pairwise_append.mp hp).2.1
              exact (List.pairwise_cons.mp this).1 s hsl2
        · rw [← sortByPriority_filter rules r.priority, hdec,
            List.filter_append, List.filter_cons]
          have hrq : (r.priority == r.priority) = true := by simp
          rw [List.find?_append]
          have hl1 : (l1.filter (fun s => s.priority == r.priority)).find?
              (fun s => s.ruleMatches title) = none := by
            rw [List.find?_eq_none]
            intro z hz
            simp [h1 z (List.mem_of_mem_filter hz)]
          rw [hl1]
          simp only [hrq, if_true]
          simp [List.find?_cons, h2]

/-- Witness for C4: an override short-circuits a matching rule; with no
override the lowest-priority matching rule wins; with no match the
result is the UNKNOWN default. -/
theorem c4_infer_illness_witness :
    inferIllness
        [{ ruleMatches := fun t => containsSub "shock".data t,
           label := "SEPTIC_SHOCK".data, priority := 1 },
         { ruleMatches := fun t => containsSub "sepsis".data t,
           label := "SEPSIS".data, priority := 3 }]
        [("S1".data, "CONTROL".data)] "big shock".data "S1".data
      = ("CONTROL".data, "override".data)
    ∧ inferIllness
        [{ ruleMatches := fun t => containsSub "shock".data t,
           label := "SEPTIC_SHOCK".data, priority := 1 },
         { ruleMatches := fun t => containsSub "sepsis".data t,
           label := "SEPSIS".data, priority := 3 }]
        [] "calm".data "S2".data
      = ("UNKNOWN".data, "default".data)
    ∧ (∃ r, r ∈
        ([{ ruleMatches := fun t => containsSub "shock".data t,
            label := "SEPTIC_SHOCK".data, priority := 1 },
          { ruleMatches := fun t => containsSub "sepsis".data t,
            label := "SEPSIS".data, priority := 3 }] : List IllnessRule)
        ∧ r.ruleMatches "big shock".data = true
        ∧ inferIllness
            [{ ruleMatches := fun t => containsSub "shock".data t,
               label := "SEPTIC_SHOCK".data, priority := 1 },
             { ruleMatches := fun t => containsSub "sepsis".data t,
               label := "SEPSIS".data, priority := 3 }]
            [] "big shock".data "S2".data = (r.label, "regex".data)
        ∧ (∀ s ∈
            ([{ ruleMatches := fun t => containsSub "shock".data t,
                label := "SEPTIC_SHOCK".data, priority := 1 },
              { ruleMatches := fun t => containsSub "sepsis".data t,
                label := "SEPSIS".data, priority := 3 }] : List IllnessRule),
            s.ruleMatches "big shock".data = true →
              r.priority ≤ s.priority)
        ∧ (List.filter (fun s => s.priority == r.priority)
            ([{ ruleMatches := fun t => containsSub "shock".data t,
                label := "SEPTIC_SHOCK".data, priority := 1 },
              { ruleMatches := fun t => containsSub "sepsis".data t,
                label := "SEPSIS".data, priority := 3 }] : List IllnessRule)).find?
            (fun s => s.ruleMatches "big shock".data) = some r) := by
  refine ⟨?_, ?_, ?_⟩
  · exact (c4_infer_illness _ _ "big shock".data "S1".data).1
      "CONTROL".data rfl
  · exact ((c4_infer_illness _ [] "calm".data "S2".data).2 rfl).1
      (by decide)
  · exact ((c4_infer_illness _ [] "big shock".data "S2".data).2 rfl).2
      _ (List.mem_cons_self _ _) (by decide)

/-! ## Claim C9: illness map key invariant -/

theorem toNat_ofNat_valid (n : Nat) (h : n.isValidChar) :
    (Char.ofNat n).toNat = n := by
  simp only [Char.ofNat, dif_pos h]
  simp [Char.ofNatAux, Char.toNat, UInt32.toNat]

theorem pyUpperChar_toNat_of_lower (c : Char)
    (h : 97 ≤ c.toNat ∧ c.toNat ≤ 122) :
    (pyUpperChar c).toNat = c.toNat - 32 := by
  have hv : (c.toNat - 32).isValidChar := by
    unfold Nat.isValidChar
    left
    omega
  simp only [pyUpperChar, if_pos h]
  exact toNat_ofNat_valid _ hv

theorem pyUpperChar_eq_self (c : Char)
    (h : ¬ (97 ≤ c.toNat ∧ c.toNat ≤ 122)) : pyUpperChar c = c := by
  unfold pyUpperChar
  rw [if_neg h]

theorem pyUpperChar_idem (c : Char) :
    pyUpperChar (pyUpperChar c) = pyUpperChar c := by
  by_cases h : 97 ≤ c.toNat ∧ c.toNat ≤ 122
  · apply pyUpperChar_eq_self
    rw [pyUpperChar_toNat_of_lower c h]
    omega
  · simp [pyUpperChar_eq_self c h]

theorem isPySpace_pyUpperChar (c : Char) :
    isPySpace (pyUpperChar c) = isPySpace c := by
  by_cases h : 97 ≤ c.toNat ∧ c.toNat ≤ 122
  · have h1 := pyUpperChar_toNat_of_lower c h
    have hL : isPySpace (pyUpperChar c) = false := by
      simp [isPySpace, h1]
      omega
    have hR : isPySpace c = false := by
      simp [isPySpace]
      omega
    rw [hL, hR]
  · rw [pyUpperChar_eq_self c h]

theorem pyUpper_idem (s : List Char) : pyUpper (pyUpper s) = pyUpper s := by
  induction s with
  | nil => rfl
  | cons c cs ih =>
    simp only [pyUpper, List.map_cons] at ih ⊢
    rw [pyUpperChar_idem, ih]

theorem dropWhile_isPySpace_map_pyUpperChar (l : List Char) :
    (l.map pyUpperChar).dropWhile isPySpace
      = (l.dropWhile isPySpace).map pyUpperChar := by
  induction l with
  | nil => rfl
  | cons c cs ih =>
    simp only [List.map_cons, List.dropWhile_cons, isPySpace_pyUpperChar]
    by_cases h : isPySpace c
    · simp [h, ih]
    · simp [h]

theorem pyStrip_pyUpper (s : List Char) :
    pyStrip (pyUpper s) = pyUpper (pyStrip s) := by
  simp only [pyStrip, pyUpper]
  rw [dropWhile_isPySpace_map_pyUpperChar, ← List.map_reverse,
    dropWhile_isPySpace_map_pyUpperChar, ← List.map_reverse]

theorem dropWhile_idem (p : Char → Bool) (l : List Char) :
    (l.dropWhile p).dropWhile p = l.dropWhile p := by
  induction l with
  | nil => rfl
  | cons c cs ih =>
    by_cases h : p c = true
    · simp [List.dropWhile_cons, h, ih]
    · simp [List.dropWhile_cons, h]

theorem dropWhile_head_false (p : Char → Bool) (l : List Char) (c : Char)
    (cs : List Char) (h : l.dropWhile p = c :: cs) : p c = false := by
  induction l with
  | nil => simp at h
  | cons a as ih =>
    by_cases ha : p a = true
    · rw [List.dropWhile_cons, if_pos ha] at h
      exact ih h
    · rw [List.dropWhile_cons, if_neg ha] at h
      obtain ⟨rfl, rfl⟩ : a = c ∧ as = cs := by
        constructor <;> injection h
      simpa using ha

theorem dropWhile_suffix_exists (p : Char → Bool) (l : List Char) :
    ∃ t, l = t ++ l.dropWhile p := by
  induction l with
  | nil => exact ⟨[], rfl⟩
  | cons c cs ih =>
    by_cases h : p c = true
    · obtain ⟨t, ht⟩ := ih
      refine ⟨c :: t, ?_⟩
      rw [List.dropWhile_cons, if_pos h, List.cons_append, ← ht]
    · exact ⟨[], by rw [List.dropWhile_cons, if_neg h]; rfl⟩

theorem pyStrip_idem (s : List Char) : pyStrip (pyStrip s) = pyStrip s := by
  have hstep1 :
      (pyStrip s).dropWhile isPySpace = pyStrip s := by
    cases hB : pyStrip s with
    | nil => rfl
    | cons c bs =>
      obtain ⟨t, ht⟩ := dropWhile_suffix_exists isPySpace
        (s.dropWhile isPySpace).reverse
      have hA : s.dropWhile isPySpace = pyStrip s ++ t.reverse := by
        have h2 := congrArg List.reverse ht
        simp only [List.reverse_reverse, List.reverse_append] at h2
        exact h2
      have hA2 : s.dropWhile isPySpace = c :: (bs ++ t.reverse) := by
        rw [hA, hB]
        simp
      have hc : isPySpace c = false :=
        dropWhile_head_false isPySpace s c _ hA2
      rw [List.dropWhile_cons, hc]
      simp
  show ((((pyStrip s).dropWhile isPySpace).reverse).dropWhile
      isPySpace).reverse = pyStrip s
  rw [hstep1]
  have hstep2 : ((pyStrip s).reverse).dropWhile isPySpace
      = (pyStrip s).reverse := by
    show (((s.dropWhile isPySpace).reverse.dropWhile
        isPySpace).reverse.reverse).dropWhile isPySpace = _
    rw [List.reverse_reverse, dropWhile_idem]
    simp [pyStrip]
  rw [hstep2, List.reverse_reverse]

theorem normalizeLabel_strip (l : List Char) :
    pyStrip (normalizeLabel l) = normalizeLabel l := by
  unfold normalizeLabel
  rw [pyStrip_pyUpper, pyStrip_idem]

theorem normalizeLabel_upper (l : List Char) :
    pyUpper (normalizeLabel l) = normalizeLabel l := by
  unfold normalizeLabel
  rw [pyUpper_idem]

theorem dictInsert_key_cases {V : Type} (m : List (List Char × V))
    (k : List Char) (v : V) :
    ∀ q ∈ dictInsert m k v, q.1 = k ∨ q ∈ m := by
  intro q hq
  unfold dictInsert at hq
  by_cases h : m.any (fun p => p.1 == k)
  · rw [if_pos h] at hq
    obtain ⟨p, hp, hpq⟩ := List.mem_map.mp hq
    by_cases hpk : (p.1 == k) = true
    · left
      rw [← hpq]
      simp only [if_pos hpk]
      exact eq_of_beq hpk
    · right
      rw [← hpq]
      simp only [if_neg hpk]
      exact hp
  · rw [if_neg h] at hq
    rcases List.mem_append.mp hq with h1 | h2
    · right; exact h1
    · left
      have : q = (k, v) := by simpa using h2
      rw [this]

theorem buildIllnessMap_keys :
    ∀ (rows : List (List Char × PyKey)) (m : List (List Char × PyKey)),
      (∀ q ∈ m, q.1 ≠ [] ∧ pyStrip q.1 = q.1 ∧ pyUpper q.1 = q.1) →
      ∀ q ∈ buildIllnessMapAux m rows,
        q.1 ≠ [] ∧ pyStrip q.1 = q.1 ∧ pyUpper q.1 = q.1 := by
  intro rows
  induction rows with
  | nil => intro m hm; exact hm
  | cons lk rows ih =>
    intro m hm
    by_cases hnl : normalizeLabel lk.1 = []
    · rw [show buildIllnessMapAux m (lk :: rows)
          = buildIllnessMapAux m rows by
        simp only [buildIllnessMapAux, if_pos hnl]]
      exact ih m hm
    · rw [show buildIllnessMapAux m (lk :: rows)
          = buildIllnessMapAux
              (dictInsert m (normalizeLabel lk.1) (parseKey lk.2)) rows by
        simp only [buildIllnessMapAux, if_neg hnl]]
      apply ih
      intro q hq
      rcases dictInsert_key_cases m (normalizeLabel lk.1) (parseKey lk.2)
        q hq with hqk | hqm
      · rw [hqk]
        exact ⟨hnl, normalizeLabel_strip _, normalizeLabel_upper _⟩
      · exact hm q hqm

/-- C9: for every lookup source the returned illness key mapping is
non-empty, and every key of the mapping is a non-empty string fixed
under whitespace trimming and upper-casing. -/
theorem c9_illness_map_key_invariant (cursor : Cursor) :
    getIllnessKeyMap cursor ≠ []
    ∧ ∀ q ∈ getIllnessKeyMap cursor,
        q.1 ≠ [] ∧ pyStrip q.1 = q.1 ∧ pyUpper q.1 = q.1 := by
  have hfb : fallbackIllnessKeyMap ≠ []
      ∧ ∀ q ∈ fallbackIllnessKeyMap,
          q.1 ≠ [] ∧ pyStrip q.1 = q.1 ∧ pyUpper q.1 = q.1 := by
    constructor
    · decide
    · decide
  cases cursor with
  | noCursor => exact hfb
  | fetchallMissing => exact hfb
  | fetchallRaises => exact hfb
  | fetchallMock => exact hfb
  | fetchallOk r =>
    cases hc : coerceToPairs r with
    | error e =>
      have hred : getIllnessKeyMap (.fetchallOk r)
          = fallbackIllnessKeyMap := by
        simp only [getIllnessKeyMap, hc]
      rw [hred]
      exact hfb
    | ok rows =>
      by_cases hr : rows = []
      · have hred : getIllnessKeyMap (.fetchallOk r)
            = fallbackIllnessKeyMap := by
          simp only [getIllnessKeyMap, hc]
          simp [hr]
        rw [hred]
        exact hfb
      · by_cases hm : buildIllnessMap rows = []
        · have hred : getIllnessKeyMap (.fetchallOk r)
              = fallbackIllnessKeyMap := by
            simp only [getIllnessKeyMap, hc]
            simp [hr, hm]
          rw [hred]
          exact hfb
        · have hred : getIllnessKeyMap (.fetchallOk r)
              = buildIllnessMap rows := by
            simp only [getIllnessKeyMap, hc]
            simp [hr, hm]
          rw [hred]
          refine ⟨hm, ?_⟩
          intro q hq
          exact buildIllnessMap_keys rows [] (by simp) q hq

/-- Witness for C9: a lookup source yielding one padded lower-case row
produces the single normalised key SEPSIS, non-empty, trimmed and
upper-cased. -/
theorem c9_illness_map_key_invariant_witness :
    getIllnessKeyMap (.fetchallOk (.iterableResult
        [.pairRow "  sepsis ".data (.str "5".data)])) ≠ []
    ∧ ("SEPSIS".data ≠ []
        ∧ pyStrip "SEPSIS".data = "SEPSIS".data
        ∧ pyUpper "SEPSIS".data = "SEPSIS".data) := by
  have h := c9_illness_map_key_invariant (.fetchallOk (.iterableResult
    [.pairRow "  sepsis ".data (.str "5".data)]))
  refine ⟨h.1, ?_⟩
  have h2 := h.2 ("SEPSIS".data, PyKey.int 5) (by decide)
  exact h2

/-! ## Claim C1: streaming record counts -/

theorem meltRows_length (header : List (List Char)) (gi : Nat)
    (rows : List (List (List Char))) :
    (meltRows header gi rows).length
      = ((List.range header.length).filter (fun j => j ≠ gi)).length
        * rows.length := by
  unfold meltRows
  rw [List.length_flatten, List.map_map]
  generalize (List.range header.length).filter (fun j => j ≠ gi) = js
  induction js with
  | nil => simp
  | cons j js ih =>
    simp only [List.map_cons, List.sum_cons, Function.comp]
    rw [List.length_map]
    simp only [Function.comp] at ih
    rw [ih]
    simp only [List.length_cons]
    ring

theorem range_filter_ne_zero_length (n : Nat) :
    ((List.range (n + 1)).filter (fun j => j ≠ 0)).length = n := by
  rw [List.range_succ_eq_map]
  rw [show (0 : Nat) :: (List.range n).map Nat.succ
    = [0] ++ (List.range n).map Nat.succ from rfl]
  rw [List.filter_append]
  have h0 : List.filter (fun j => j ≠ 0) [(0 : Nat)] = [] := by decide
  have h1 : List.filter (fun j => j ≠ 0) ((List.range n).map Nat.succ)
      = (List.range n).map Nat.succ := by
    apply List.filter_eq_self.mpr
    intro a ha
    obtain ⟨k, _, rfl⟩ := List.mem_map.mp ha
    simp
  rw [h0, h1]
  simp

theorem findIdx_gene_head (cols : List (List Char)) :
    ("Gene".data :: cols).findIdx? (fun c => c == "Gene".data) = some 0 := by
  rfl

theorem extractBatch_gene_ok (studyCode fileHash fileName : List Char)
    (cols : List (List Char)) (rows : List (List (List Char))) :
    extractBatch studyCode fileHash fileName ("Gene".data :: cols) rows
      = .ok ((meltRows ("Gene".data :: cols) 0 rows).map
          (mkMeltRec studyCode fileHash fileName)) := by
  unfold extractBatch meltBatch
  rw [findIdx_gene_head]
  rfl

theorem mapExcept_ok_of_all {A B : Type} (f : A → Except Unit B)
    (g : A → B) :
    ∀ l : List A, (∀ x ∈ l, f x = .ok (g x)) →
      mapExcept f l = .ok (l.map g) := by
  intro l
  induction l with
  | nil => intro _; rfl
  | cons x xs ih =>
    intro h
    have hx : f x = .ok (g x) := h x (List.mem_cons_self _ _)
    have hxs := ih (fun y hy => h y (List.mem_cons_of_mem _ hy))
    simp [mapExcept, hx, hxs]

theorem sum_map_mul_const {X : Type} (S : Nat) :
    ∀ ls : List (List X),
      (ls.map (fun b => S * b.length)).sum = S * (ls.map List.length).sum := by
  intro ls
  induction ls with
  | nil => simp
  | cons b bs ih => simp [ih, Nat.mul_add]

/-- C1 counterexample: a one-gene, one-sample matrix whose first column
header is GeneID rather than Gene makes the extraction raise a KeyError
in the melt instead of yielding the G times S = 1 records the claim
promises for an arbitrary first column header. -/
theorem c1_arbitrary_header_counterexample :
    extractExpressionMatrixStreaming (fun _ => []) [] "f.tsv".data "ST".data
        ["GeneID".data, "S1".data] [[["g1".data, "1.5".data]]]
      = .error ()
    ∧ IsBatchingOf [[["g1".data, "1.5".data]]] [["g1".data, "1.5".data]] :=
  ⟨rfl, ⟨rfl, by decide⟩⟩

/-- C1 amended: for every wide matrix whose gene-id column header is
exactly Gene (as the melt id column requires), with G data rows and S
sample columns, one extraction call yields records totalling exactly
G times S, and the records-extracted statistic, the sum of the record
counts over all yielded batches, equals G times S as well. -/
theorem c1_streaming_record_counts (sha256Hex : List Nat → List Char)
    (fileBytes : List Nat) (fileName studyCode : List Char)
    (sampleCols : List (List Char)) (rows : List (List (List Char)))
    (batches : List (List (List (List Char))))
    (hb : IsBatchingOf batches rows) :
    ∃ bss,
      extractExpressionMatrixStreaming sha256Hex fileBytes fileName
          studyCode ("Gene".data :: sampleCols) batches = .ok bss
      ∧ bss.flatten.length = rows.length * sampleCols.length
      ∧ recordsExtracted bss = rows.length * sampleCols.length := by
  refine ⟨batches.map (fun b =>
    (meltRows ("Gene".data :: sampleCols) 0 b).map
      (mkMeltRec studyCode (computeFileHash sha256Hex fileBytes)
        fileName)), ?_, ?_, ?_⟩
  · unfold extractExpressionMatrixStreaming
    exact mapExcept_ok_of_all _ _ batches
      (fun b _ => extractBatch_gene_ok _ _ _ _ b)
  · rw [List.length_flatten, List.map_map]
    have hlen : ∀ b : List (List (List Char)),
        ((meltRows ("Gene".data :: sampleCols) 0 b).map
          (mkMeltRec studyCode (computeFileHash sha256Hex fileBytes)
            fileName)).length
          = sampleCols.length * b.length := by
      intro b
      rw [List.length_map, meltRows_length]
      rw [show ("Gene".data :: sampleCols).length
        = sampleCols.length + 1 from rfl]
      rw [range_filter_ne_zero_length]
    have : batches.map (List.length ∘ fun b =>
        (meltRows ("Gene".data :: sampleCols) 0 b).map
          (mkMeltRec studyCode (computeFileHash sha256Hex fileBytes)
            fileName))
        = batches.map (fun b => sampleCols.length * b.length) := by
      apply List.map_congr_left
      intro b _
      exact hlen b
    rw [this, sum_map_mul_const]
    have hflat : (batches.map List.length).sum = rows.length := by
      rw [← hb.1, List.length_flatten]
    rw [hflat, Nat.mul_comm]
  · rw [recordsExtracted, List.map_map]
    have : batches.map (List.length ∘ fun b =>
        (meltRows ("Gene".data :: sampleCols) 0 b).map
          (mkMeltRec studyCode (computeFileHash sha256Hex fileBytes)
            fileName))
        = batches.map (fun b => sampleCols.length * b.length) := by
      apply List.map_congr_left
      intro b _
      rw [Function.comp, List.length_map, meltRows_length]
      rw [show ("Gene".data :: sampleCols).length
        = sampleCols.length + 1 from rfl]
      rw [range_filter_ne_zero_length]
    rw [this, sum_map_mul_const]
    have hflat : (batches.map List.length).sum = rows.length := by
      rw [← hb.1, List.length_flatten]
    rw [hflat, Nat.mul_comm]

/-- Witness for C1 at a concrete 2 by 2 matrix split into two one-row
batches. -/
theorem c1_streaming_record_counts_witness :
    ∃ bss,
      extractExpressionMatrixStreaming (fun _ => "h".data) [7] "f.tsv".data
          "ST".data ("Gene".data :: ["S1".data, "S2".data])
          [[["g1".data, "1".data, "2".data]],
           [["g2".data, "3".data, "4".data]]] = .ok bss
      ∧ bss.flatten.length
          = [["g1".data, "1".data, "2".data],
             ["g2".data, "3".data, "4".data]].length
            * ["S1".data, "S2".data].length
      ∧ recordsExtracted bss
          = [["g1".data, "1".data, "2".data],
             ["g2".data, "3".data, "4".data]].length
            * ["S1".data, "S2".data].length :=
  c1_streaming_record_counts (fun _ => "h".data) [7] "f.tsv".data "ST".data
    ["S1".data, "S2".data]
    [["g1".data, "1".data, "2".data], ["g2".data, "3".data, "4".data]]
    [[["g1".data, "1".data, "2".data]], [["g2".data, "3".data, "4".data]]]
    ⟨rfl, by decide⟩

/-! ## Claim C8: hash and content determinism of extraction -/

theorem chunksOfAux_flatten {α : Type} (n : Nat) (hn : 0 < n) :
    ∀ (fuel : Nat) (l : List α), l.length ≤ fuel →
      (chunksOfAux n fuel l).flatten = l := by
  intro fuel
  induction fuel with
  | zero =>
    intro l hl
    have hnil : l = [] := List.length_eq_zero.mp (Nat.le_zero.mp hl)
    subst hnil
    rfl
  | succ fuel ih =>
    intro l hl
    cases l with
    | nil => rfl
    | cons c cs =>
      show ((c :: cs).take n :: chunksOfAux n fuel ((c :: cs).drop n)).flatten
        = c :: cs
      rw [List.flatten_cons, ih _ ?_]
      · exact List.take_append_drop n (c :: cs)
      · rw [List.length_drop]
        simp only [List.length_cons] at hl ⊢
        omega

theorem computeFileHash_eq (sha256Hex : List Nat → List Char)
    (fileBytes : List Nat) :
    computeFileHash sha256Hex fileBytes = sha256Hex fileBytes := by
  unfold computeFileHash chunksOf
  rw [chunksOfAux_flatten 4096 (by omega) fileBytes.length fileBytes
    (le_refl _)]

theorem mapExcept_ok_mem {A B : Type} (f : A → Except Unit B) :
    ∀ (l : List A) (ys : List B), mapExcept f l = .ok ys →
      ∀ y ∈ ys, ∃ x ∈ l, f x = .ok y := by
  intro l
  induction l with
  | nil =>
    intro ys h y hy
    obtain rfl : ([] : List B) = ys := by
      injection h
    simp at hy
  | cons x xs ih =>
    intro ys h y hy
    cases hfx : f x with
    | error e => simp [mapExcept, hfx] at h
    | ok b =>
      cases hrest : mapExcept f xs with
      | error e => simp [mapExcept, hfx, hrest] at h
      | ok bs =>
        simp only [mapExcept, hfx, hrest] at h
        obtain rfl : b :: bs = ys := by injection h
        rcases List.mem_cons.mp hy with rfl | hy2
        · exact ⟨x, List.mem_cons_self _ _, hfx⟩
        · obtain ⟨x2, hx2, hfx2⟩ := ih bs hrest y hy2
          exact ⟨x2, List.mem_cons_of_mem _ hx2, hfx2⟩

theorem extractBatch_hash (studyCode fileHash fileName : List Char)
    (header : List (List Char)) (rows : List (List (List Char)))
    (recs : List MeltRec)
    (h : extractBatch studyCode fileHash fileName header rows = .ok recs) :
    ∀ rec ∈ recs, rec.file_hash = fileHash := by
  unfold extractBatch at h
  cases hm : meltBatch header rows with
  | error e =>
    rw [hm] at h
    simp [Except.map] at h
  | ok ms =>
    rw [hm] at h
    simp only [Except.map] at h
    obtain rfl : List.map (mkMeltRec studyCode fileHash fileName) ms = recs := by
      injection h
    intro rec hrec
    obtain ⟨t, _, rfl⟩ := List.mem_map.mp hrec
    rfl

theorem flatten_map_append_perm {X D : Type} (f g : X → List D) :
    ∀ js : List X,
      List.Perm ((js.map (fun j => f j ++ g j)).flatten)
        ((js.map f).flatten ++ (js.map g).flatten) := by
  intro js
  induction js with
  | nil => simp
  | cons j js ih =>
    simp only [List.map_cons, List.flatten_cons]
    refine (List.Perm.append_left (f j ++ g j) ih).trans ?_
    have h1 : (f j ++ g j) ++ ((js.map f).flatten ++ (js.map g).flatten)
        = f j ++ (g j ++ ((js.map f).flatten ++ (js.map g).flatten)) := by
      simp [List.append_assoc]
    have h2 : (f j ++ (js.map f).flatten) ++ (g j ++ (js.map g).flatten)
        = f j ++ ((js.map f).flatten ++ (g j ++ (js.map g).flatten)) := by
      simp [List.append_assoc]
    rw [h1, h2]
    apply List.Perm.append_left
    rw [← List.append_assoc, ← List.append_assoc]
    exact List.Perm.append_right _ List.perm_append_comm

theorem meltRows_append (header : List (List Char)) (gi : Nat)
    (b c : List (List (List Char))) :
    List.Perm (meltRows header gi (b ++ c))
      (meltRows header gi b ++ meltRows header gi c) := by
  unfold meltRows
  have hmap : ((List.range header.length).filter (fun j => j ≠ gi)).map
      (fun j => (b ++ c).map
        (fun r => (r.getD gi [], header.getD j [], r.getD j [])))
      = ((List.range header.length).filter (fun j => j ≠ gi)).map
        (fun j =>
          b.map (fun r => (r.getD gi [], header.getD j [], r.getD j []))
          ++ c.map (fun r => (r.getD gi [], header.getD j [], r.getD j []))) := by
    apply List.map_congr_left
    intro j _
    exact List.map_append _ _ _
  rw [hmap]
  exact flatten_map_append_perm _ _ _

theorem meltRows_nil (header : List (List Char)) (gi : Nat) :
    meltRows header gi [] = [] := by
  unfold meltRows
  induction ((List.range header.length).filter (fun j => j ≠ gi)) with
  | nil => rfl
  | cons j js ih =>
    simp only [List.map_cons, List.map_nil, List.flatten_cons,
      List.nil_append]
    exact ih

theorem meltRows_batches_perm (header : List (List Char)) (gi : Nat) :
    ∀ batches : List (List (List (List Char))),
      List.Perm ((batches.map (fun b => meltRows header gi b)).flatten)
        (meltRows header gi batches.flatten) := by
  intro batches
  induction batches with
  | nil => simp [meltRows_nil]
  | cons b bs ih =>
    simp only [List.map_cons, List.flatten_cons]
    refine (List.Perm.append_left (meltRows header gi b) ih).trans ?_
    exact (meltRows_append header gi b bs.flatten).symm

theorem isBatchingOf_nil_iff (batches : List (List (List (List Char))))
    (rows : List (List (List Char))) (hb : IsBatchingOf batches rows) :
    batches = [] ↔ rows = [] := by
  obtain ⟨hflat, hmem⟩ := hb
  constructor
  · intro h
    rw [h] at hflat
    exact hflat.symm
  · intro h
    subst h
    cases hbs : batches with
    | nil => rfl
    | cons b bs =>
      exfalso
      rw [hbs, List.flatten_cons] at hflat
      have hb0 : b = [] := (List.append_eq_nil.mp hflat).1
      exact hmem (hbs ▸ (hb0 ▸ List.mem_cons_self b bs))

theorem extract_error_of_no_gene (sha256Hex : List Nat → List Char)
    (fileBytes : List Nat) (fileName studyCode : List Char)
    (header : List (List Char))
    (hfind : header.findIdx? (fun c => c == "Gene".data) = none)
    (b : List (List (List Char))) (bs : List (List (List (List Char)))) :
    extractExpressionMatrixStreaming sha256Hex fileBytes fileName studyCode
      header (b :: bs) = .error () := by
  have hx : extractBatch studyCode (computeFileHash sha256Hex fileBytes)
      fileName header b = .error () := by
    unfold extractBatch meltBatch
    rw [hfind]
    rfl
  show mapExcept (extractBatch studyCode
    (computeFileHash sha256Hex fileBytes) fileName header) (b :: bs)
    = .error ()
  simp only [mapExcept, hx]

theorem extract_ok_of_gene (sha256Hex : List Nat → List Char)
    (fileBytes : List Nat) (fileName studyCode : List Char)
    (header : List (List Char)) (gi : Nat)
    (hfind : header.findIdx? (fun c => c == "Gene".data) = some gi)
    (batches : List (List (List (List Char)))) :
    extractExpressionMatrixStreaming sha256Hex fileBytes fileName studyCode
        header batches
      = .ok (batches.map (fun b => (meltRows header gi b).map
          (mkMeltRec studyCode (computeFileHash sha256Hex fileBytes)
            fileName))) := by
  apply mapExcept_ok_of_all
  intro b _
  unfold extractBatch meltBatch
  rw [hfind]
  rfl

theorem flatten_map_comm {A B : Type} (f : A → B) :
    ∀ L : List (List A), (L.map (List.map f)).flatten = L.flatten.map f := by
  intro L
  induction L with
  | nil => rfl
  | cons l ls ih =>
    simp only [List.map_cons, List.flatten_cons, List.map_append, ih]

theorem extract_flatten_perm (header : List (List Char)) (gi : Nat)
    (mk : List Char × List Char × List Char → MeltRec)
    (batches : List (List (List (List Char))))
    (rows : List (List (List Char))) (hb : IsBatchingOf batches rows) :
    List.Perm ((batches.map (fun b => (meltRows header gi b).map mk)).flatten)
      ((meltRows header gi rows).map mk) := by
  have h1 : (batches.map (fun b => (meltRows header gi b).map mk)).flatten
      = ((batches.map (fun b => meltRows header gi b)).flatten).map mk := by
    rw [← flatten_map_comm, List.map_map]
    rfl
  rw [h1, ← hb.1]
  exact List.Perm.map mk (meltRows_batches_perm header gi batches)

/-- C8: every record yielded by one extraction call carries the same
file hash, equal to the digest of the source file bytes computed by the
4096-byte chunk loop; for byte-identical file content the attached hash
is identical across runs, and the collection of yielded records is the
same for every batching the reader chooses, with errors likewise
independent of the batching. -/
theorem c8_extraction_determinism (sha256Hex : List Nat → List Char)
    (fileBytes : List Nat) (fileName studyCode : List Char)
    (header : List (List Char)) (rows : List (List (List Char)))
    (batches1 batches2 : List (List (List (List Char))))
    (h1 : IsBatchingOf batches1 rows) (h2 : IsBatchingOf batches2 rows) :
    computeFileHash sha256Hex fileBytes = sha256Hex fileBytes
    ∧ (∀ bss, extractExpressionMatrixStreaming sha256Hex fileBytes fileName
          studyCode header batches1 = .ok bss →
        ∀ rec ∈ bss.flatten, rec.file_hash = sha256Hex fileBytes)
    ∧ (∀ bss1 bss2,
        extractExpressionMatrixStreaming sha256Hex fileBytes fileName
          studyCode header batches1 = .ok bss1 →
        extractExpressionMatrixStreaming sha256Hex fileBytes fileName
          studyCode header batches2 = .ok bss2 →
        List.Perm bss1.flatten bss2.flatten)
    ∧ (extractExpressionMatrixStreaming sha256Hex fileBytes fileName
          studyCode header batches1 = .error ()
        ↔ extractExpressionMatrixStreaming sha256Hex fileBytes fileName
          studyCode header batches2 = .error ()) := by
  refine ⟨computeFileHash_eq _ _, ?_, ?_, ?_⟩
  · intro bss hok rec hrec
    obtain ⟨l, hl, hrecl⟩ := List.mem_flatten.mp hrec
    obtain ⟨b, _, hfb⟩ := mapExcept_ok_mem _ batches1 bss hok l hl
    have := extractBatch_hash studyCode
      (computeFileHash sha256Hex fileBytes) fileName header b l hfb
      rec hrecl
    rw [this, computeFileHash_eq]
  · intro bss1 bss2 hok1 hok2
    cases hfind : header.findIdx? (fun c => c == "Gene".data) with
    | none =>
      cases hrows : rows with
      | nil =>
        have hb1 : batches1 = [] := (isBatchingOf_nil_iff _ _ h1).mpr hrows
        have hb2 : batches2 = [] := (isBatchingOf_nil_iff _ _ h2).mpr hrows
        subst hb1
        subst hb2
        obtain rfl : ([] : List (List MeltRec)) = bss1 := by injection hok1
        obtain rfl : ([] : List (List MeltRec)) = bss2 := by injection hok2
        exact List.Perm.refl _
      | cons r rs =>
        exfalso
        cases hbs : batches1 with
        | nil =>
          have := (isBatchingOf_nil_iff _ _ h1).mp hbs
          rw [hrows] at this
          simp at this
        | cons b bs =>
          rw [hbs, extract_error_of_no_gene sha256Hex fileBytes fileName
            studyCode header hfind b bs] at hok1
          simp at hok1
    | some gi =>
      rw [extract_ok_of_gene sha256Hex fileBytes fileName studyCode header
        gi hfind batches1] at hok1
      rw [extract_ok_of_gene sha256Hex fileBytes fileName studyCode header
        gi hfind batches2] at hok2
      obtain rfl : batches1.map (fun b => (meltRows header gi b).map
          (mkMeltRec studyCode (computeFileHash sha256Hex fileBytes)
            fileName)) = bss1 := by
        injection hok1
      obtain rfl : batches2.map (fun b => (meltRows header gi b).map
          (mkMeltRec studyCode (computeFileHash sha256Hex fileBytes)
            fileName)) = bss2 := by
        injection hok2
      exact (extract_flatten_perm header gi _ batches1 rows h1).trans
        (extract_flatten_perm header gi _ batches2 rows h2).symm
  · cases hfind : header.findIdx? (fun c => c == "Gene".data) with
    | some gi =>
      rw [extract_ok_of_gene sha256Hex fileBytes fileName studyCode header
        gi hfind batches1]
      rw [extract_ok_of_gene sha256Hex fileBytes fileName studyCode header
        gi hfind batches2]
      simp
    | none =>
      cases hrows : rows with
      | nil =>
        have hb1 : batches1 = [] := (isBatchingOf_nil_iff _ _ h1).mpr hrows
        have hb2 : batches2 = [] := (isBatchingOf_nil_iff _ _ h2).mpr hrows
        subst hb1
        subst hb2
        show ((Except.ok [] : Except Unit (List (List MeltRec)))
            = .error ()) ↔ ((Except.ok [] : Except Unit (List (List MeltRec)))
            = .error ())
        exact Iff.rfl
      | cons r rs =>
        have hb1ne : batches1 ≠ [] := by
          intro hnil
          have := (isBatchingOf_nil_iff _ _ h1).mp hnil
          rw [hrows] at this
          simp at this
        have hb2ne : batches2 ≠ [] := by
          intro hnil
          have := (isBatchingOf_nil_iff _ _ h2).mp hnil
          rw [hrows] at this
          simp at this
        obtain ⟨b1, bs1, rfl⟩ := List.exists_cons_of_ne_nil hb1ne
        obtain ⟨b2, bs2, rfl⟩ := List.exists_cons_of_ne_nil hb2ne
        rw [extract_error_of_no_gene sha256Hex fileBytes fileName studyCode
          header hfind b1 bs1]
        rw [extract_error_of_no_gene sha256Hex fileBytes fileName studyCode
          header hfind b2 bs2]

/-- Witness for C8 at a concrete two-row matrix under two different
batchings. -/
theorem c8_extraction_determinism_witness :
    computeFileHash (fun _ => "h".data) [1, 2] = (fun _ => "h".data) [1, 2]
    ∧ (extractExpressionMatrixStreaming (fun _ => "h".data) [1, 2] "f".data
        "ST".data ("Gene".data :: ["S1".data])
        [[["g1".data, "1".data]], [["g2".data, "2".data]]] = .error ()
      ↔ extractExpressionMatrixStreaming (fun _ => "h".data) [1, 2] "f".data
        "ST".data ("Gene".data :: ["S1".data])
        [[["g1".data, "1".data], ["g2".data, "2".data]]] = .error ()) := by
  have h := c8_extraction_determinism (fun _ => "h".data) [1, 2] "f".data
    "ST".data ("Gene".data :: ["S1".data])
    [["g1".data, "1".data], ["g2".data, "2".data]]
    [[["g1".data, "1".data]], [["g2".data, "2".data]]]
    [[["g1".data, "1".data], ["g2".data, "2".data]]]
    ⟨rfl, by decide⟩ ⟨rfl, by decide⟩
  exact ⟨h.1, h.2.2.2⟩

/-! ## Claim C6: platform normalization -/

theorem firstCloseIdx_append_close (a : List Char)
    (h : ∀ c ∈ a, c ≠ ')') :
    firstCloseIdx (a ++ [')']) = some a.length := by
  induction a with
  | nil => rfl
  | cons c cs ih =>
    have hc : c ≠ ')' := h c (List.mem_cons_self _ _)
    show (if c = ')' then some 0
      else (firstCloseIdx (cs ++ [')'])).map (· + 1)) = some (c :: cs).length
    rw [if_neg hc, ih (fun x hx => h x (List.mem_cons_of_mem _ hx))]
    rfl

theorem parenMatchAt_eq_none_of_nil (s : List Char) (i : Nat)
    (hd : s.drop i = []) : parenMatchAt s i = none := by
  unfold parenMatchAt
  rw [hd]

theorem parenMatchAt_eq_none_of_head (s : List Char) (i : Nat) (c : Char)
    (rest : List Char) (hd : s.drop i = c :: rest) (hc : c ≠ '(') :
    parenMatchAt s i = none := by
  unfold parenMatchAt
  rw [hd]
  exact if_neg hc

theorem parenMatchAt_eq_of_open (s : List Char) (i : Nat)
    (rest : List Char) (hd : s.drop i = '(' :: rest) :
    parenMatchAt s i
      = match firstCloseIdx rest with
        | some k => if 1 ≤ k then some (s.take i, rest.take k) else none
        | none => none := by
  unfold parenMatchAt
  rw [hd]
  exact if_pos rfl

theorem parenMatchAt_decomp (n a : List Char) (ha : a ≠ [])
    (hnp : ∀ c ∈ a, c ≠ ')') :
    parenMatchAt (n ++ '(' :: (a ++ [')'])) n.length = some (n, a) := by
  have hk : 1 ≤ a.length := by
    cases a with
    | nil => exact absurd rfl ha
    | cons x xs => simp
  rw [parenMatchAt_eq_of_open _ _ _ (List.drop_left n ('(' :: (a ++ [')'])))]
  rw [firstCloseIdx_append_close a hnp]
  show (if 1 ≤ a.length then
      some ((n ++ '(' :: (a ++ [')'])).take n.length, (a ++ [')']).take
        a.length)
    else none) = some (n, a)
  rw [if_pos hk, List.take_left, List.take_left]

theorem parenMatchAt_none_gt (n a : List Char)
    (hnp : ∀ c ∈ a, c ≠ '(') (i : Nat) (hi : n.length < i) :
    parenMatchAt (n ++ '(' :: (a ++ [')'])) i = none := by
  obtain ⟨m, rfl⟩ : ∃ m, i = n.length + (m + 1) :=
    ⟨i - n.length - 1, by omega⟩
  have hdrop : (n ++ '(' :: (a ++ [')'])).drop (n.length + (m + 1))
      = (a ++ [')']).drop m := by
    rw [List.drop_append, List.drop_succ_cons]
  cases hd : (a ++ [')']).drop m with
  | nil => exact parenMatchAt_eq_none_of_nil _ _ (hdrop.trans hd)
  | cons c rest =>
    have hcmem : c ∈ a ++ [')'] :=
      List.mem_of_mem_drop (hd ▸ List.mem_cons_self c rest)
    have hc : c ≠ '(' := by
      rcases List.mem_append.mp hcmem with hmem | hmem
      · exact hnp c hmem
      · have hcp : c = ')' := by simpa using hmem
        rw [hcp]
        decide
    exact parenMatchAt_eq_none_of_head _ _ c rest (hdrop.trans hd) hc

theorem parenSearchFrom_some (s : List Char) (i0 : Nat)
    (r : List Char × List Char) (hi0 : 1 ≤ i0)
    (hval : parenMatchAt s i0 = some r)
    (hnone : ∀ i, i0 < i → parenMatchAt s i = none) :
    ∀ m, i0 ≤ m → parenSearchFrom s m = some r := by
  intro m
  induction m with
  | zero => intro h0; omega
  | succ m ih =>
    intro hm
    by_cases he : i0 = m + 1
    · show (match parenMatchAt s (m + 1) with
        | some r => some r
        | none => parenSearchFrom s m) = some r
      rw [← he, hval]
    · have hn : parenMatchAt s (m + 1) = none := hnone (m + 1) (by omega)
      show (match parenMatchAt s (m + 1) with
        | some r => some r
        | none => parenSearchFrom s m) = some r
      rw [hn]
      exact ih (by omega)

theorem pyMatchNameParen_decomp (n a : List Char) (hn : n ≠ [])
    (ha : a ≠ []) (hpar : ∀ c ∈ a, c ≠ '(' ∧ c ≠ ')') :
    pyMatchNameParen (n ++ '(' :: (a ++ [')'])) = some (n, a) := by
  unfold pyMatchNameParen
  have hlen : (n ++ '(' :: (a ++ [')'])).length
      = n.length + a.length + 2 := by
    simp [List.length_append]
    omega
  apply parenSearchFrom_some _ n.length (n, a)
    (List.length_pos.mpr hn)
    (parenMatchAt_decomp n a ha (fun c hc => (hpar c hc).2))
    (fun i hi => parenMatchAt_none_gt n a
      (fun c hc => (hpar c hc).1) i hi)
  rw [hlen]
  omega

theorem parenMatchAt_none_of_no_open (s : List Char)
    (h : ∀ c ∈ s, c ≠ '(') (i : Nat) : parenMatchAt s i = none := by
  cases hd : s.drop i with
  | nil => exact parenMatchAt_eq_none_of_nil _ _ hd
  | cons c rest =>
    have hcmem : c ∈ s :=
      List.mem_of_mem_drop (hd ▸ List.mem_cons_self c rest)
    exact parenMatchAt_eq_none_of_head _ _ c rest hd (h c hcmem)

theorem pyMatchNameParen_none (s : List Char)
    (h : ∀ c ∈ s, c ≠ '(') : pyMatchNameParen s = none := by
  unfold pyMatchNameParen
  generalize s.length - 1 = m
  induction m with
  | zero => rfl
  | succ m ih =>
    show (match parenMatchAt s (m + 1) with
      | some r => some r
      | none => parenSearchFrom s m) = none
    rw [parenMatchAt_none_of_no_open s h (m + 1)]
    exact ih

/-- C6: a platform descriptor of the form name followed by a
parenthesized suffix normalizes to the trimmed name and the suffix
contents as accession, while a descriptor with no parenthesized suffix
uses the whole descriptor for both name and accession; the manufacturer
is the first case-insensitive substring match of the name against the
keyword table in table-iteration order, defaulting to Unknown, with the
default table illumina, affymetrix, agilent; the two concrete example
descriptors normalize as the specification states. -/
theorem c6_normalize_platform (lookup : List (List Char × List Char))
    (studyTechnology : List Char) :
    (∀ n a, n ≠ [] → a ≠ [] → (∀ c ∈ a, c ≠ '(' ∧ c ≠ ')') →
        normalizePlatform lookup (n ++ '(' :: (a ++ [')'])) studyTechnology
          = { accession := a, name := pyStrip n,
              manufacturer := inferManufacturer lookup (pyStrip n),
              technology := inferMeasurementTechnology
                (some studyTechnology) (some (pyStrip n)) })
    ∧ (∀ raw, (∀ c ∈ raw, c ≠ '(') →
        normalizePlatform lookup raw studyTechnology
          = { accession := raw, name := raw,
              manufacturer := inferManufacturer lookup raw,
              technology := inferMeasurementTechnology
                (some studyTechnology) (some raw) })
    ∧ (∀ name kv, lookup.find? (fun kv => containsSub kv.1 (pyLower name))
          = some kv → inferManufacturer lookup name = kv.2)
    ∧ (∀ name, lookup.find? (fun kv => containsSub kv.1 (pyLower name))
          = none → inferManufacturer lookup name = "Unknown".data)
    ∧ defaultManufacturerLookup
        = [("illumina".data, "Illumina".data),
           ("affymetrix".data, "Affymetrix".data),
           ("agilent".data, "Agilent".data)]
    ∧ normalizePlatform defaultManufacturerLookup
        "Illumina Genome Analyzer (GPL1111)".data "RNA-SEQ".data
      = { accession := "GPL1111".data,
          name := "Illumina Genome Analyzer".data,
          manufacturer := "Illumina".data, technology := "RNA-SEQ".data }
    ∧ normalizePlatform defaultManufacturerLookup "Illumina HiSeq".data
        "RNA-SEQ".data
      = { accession := "Illumina HiSeq".data,
          name := "Illumina HiSeq".data,
          manufacturer := "Illumina".data,
          technology := "RNA-SEQ".data } := by
  refine ⟨?_, ?_, ?_, ?_, rfl, by decide, by decide⟩
  · intro n a hn ha hpar
    unfold normalizePlatform
    rw [pyMatchNameParen_decomp n a hn ha hpar]
  · intro raw h
    unfold normalizePlatform
    rw [pyMatchNameParen_none raw h]
  · intro name kv h
    simp only [inferManufacturer, h]
  · intro name h
    simp only [inferManufacturer, h]

/-- Witness for C6 at a concrete parenthesized descriptor and a concrete
plain descriptor. -/
theorem c6_normalize_platform_witness :
    normalizePlatform defaultManufacturerLookup
        ("Agilent X ".data ++ '(' :: ("GPL9".data ++ [')']))
        "microarray".data
      = { accession := "GPL9".data, name := pyStrip "Agilent X ".data,
          manufacturer := inferManufacturer defaultManufacturerLookup
            (pyStrip "Agilent X ".data),
          technology := inferMeasurementTechnology
            (some "microarray".data) (some (pyStrip "Agilent X ".data)) }
    ∧ normalizePlatform defaultManufacturerLookup "Plain Chip".data
        "tech".data
      = { accession := "Plain Chip".data, name := "Plain Chip".data,
          manufacturer := inferManufacturer defaultManufacturerLookup
            "Plain Chip".data,
          technology := inferMeasurementTechnology (some "tech".data)
            (some "Plain Chip".data) } := by
  refine ⟨?_, ?_⟩
  · exact (c6_normalize_platform defaultManufacturerLookup
      "microarray".data).1 "Agilent X ".data "GPL9".data (by decide)
      (by decide) (by decide)
  · exact (c6_normalize_platform defaultManufacturerLookup
      "tech".data).2.1 "Plain Chip".data (by decide)

/-- C8 counterexample to the strict sequence reading: the same two-row,
two-sample matrix extracted under two different batchings yields the
same records in a different order, because the melt is column-major
within each batch; so the yielded record sequence is not literally
identical across batch sizes, only the collection of records is. -/
theorem c8_record_order_counterexample :
    ((extractExpressionMatrixStreaming (fun _ => "h".data) [1] "f".data
        "ST".data ("Gene".data :: ["S1".data, "S2".data])
        [[["g1".data, "1".data, "2".data]],
         [["g2".data, "3".data, "4".data]]]).toOption.map List.flatten
      ≠ (extractExpressionMatrixStreaming (fun _ => "h".data) [1] "f".data
        "ST".data ("Gene".data :: ["S1".data, "S2".data])
        [[["g1".data, "1".data, "2".data],
          ["g2".data, "3".data, "4".data]]]).toOption.map List.flatten)
    ∧ IsBatchingOf
        [[["g1".data, "1".data, "2".data]],
         [["g2".data, "3".data, "4".data]]]
        [["g1".data, "1".data, "2".data], ["g2".data, "3".data, "4".data]]
    ∧ IsBatchingOf
        [[["g1".data, "1".data, "2".data],
          ["g2".data, "3".data, "4".data]]]
        [["g1".data, "1".data, "2".data], ["g2".data, "3".data, "4".data]] :=
  ⟨by decide, ⟨rfl, by decide⟩, ⟨rfl, by decide⟩⟩

end ETL
